import Mathlib

/-!
Shallow embedding of the net-scout core (rules.py, scout.py, enrich.py, ui.py)
and proofs about it.

Modelling conventions:
* SQLite TEXT values are Lean strings; the BINARY collation used by the
  comparison (timestamp >= ?) is modelled by memcmp-style lexicographic order
  on code points; every concrete value in this development is ASCII, where the
  two orders coincide.
* SQLite NULL is Option.none.  For the unique index on scout_alerts the SQLite
  rule that NULL values are considered distinct from every value, including
  other NULLs, is modelled explicitly (sqlEq below).
* JSON TEXT columns (evidence_json, result_json, ...) are modelled
  structurally by the JVal type: the code only ever stores json.dumps of a
  value and reads it back with json.loads, and loads after dumps is the
  identity on such values, so serialization is not re-modelled.
* SQL GROUP BY is modelled as: the list of distinct grouping keys in first
  occurrence order, each paired with its aggregates computed from the matching
  rows; HAVING filters that list; ORDER BY ... DESC is an insertion sort by
  the (decidable) ordering of the query; LIMIT is List.take.  SQLite does not
  specify the order of ties, so any stable order is a faithful model for the
  properties proved here (lengths and membership).
* Python floats that merely transport decimal literals (round-trip times,
  latitude/longitude) are modelled as rationals: the code never computes with
  them, it only parses, stores and copies them.
-/

namespace NetScout

/-! Text primitives shared by several modules. -/

/-- Memcmp-style lexicographic comparison of char lists, the SQLite BINARY
collation used by the TEXT comparison in the rule queries. -/
def lexLe : List Char → List Char → Bool
  | [], _ => true
  | _ :: _, [] => false
  | a :: as, b :: bs => if a = b then lexLe as bs else decide (a.val < b.val)

/-- SQLite TEXT comparison a <= b under BINARY collation. -/
def strLe (a b : String) : Bool := lexLe a.data b.data

/-- Distinct elements of a list in first-occurrence order, accumulating the
keys already seen.  This is the set of grouping keys of a SQL GROUP BY, and
also the Python idiom dict.fromkeys(list) used in ui.py. -/
def distinctAux {α : Type} [DecidableEq α] : List α → List α → List α
  | [], _ => []
  | x :: xs, seen => if x ∈ seen then distinctAux xs seen else x :: distinctAux xs (x :: seen)

def distinctKeys {α : Type} [DecidableEq α] (l : List α) : List α :=
  distinctAux l []

/-- Structural stand-in for the JSON values the code serializes. -/
inductive JVal where
  | jnull : JVal
  | jstr : String → JVal
  | jint : Int → JVal
  | jobj : List (String × JVal) → JVal

/-! Data model: the external ip_events table (read-only to the core). -/

/-- One row of the external net_sentinel ip_events table, as consumed by the
rule queries and by the geo correlator.  The geo columns are nullable; REAL
coordinates are modelled as rationals since they are only NULL-tested and
copied, never computed with. -/
structure IpEvent where
  timestamp : String
  src_ip : String
  dst_ip : String
  dst_port : Nat
  latitude : Option ℚ := none
  longitude : Option ℚ := none
  country : Option String := none
  region : Option String := none
  city : Option String := none
deriving DecidableEq, Repr

/-! Rule engine (rules.py).  Threshold defaults are the config.py values with
no overriding environment variables set. -/

def HORIZONTAL_DST_IP_THRESHOLD : Nat := 50

def HORIZONTAL_CONN_THRESHOLD : Nat := 200

def VERTICAL_PORTS_THRESHOLD : Nat := 50

def REPEATED_CONN_THRESHOLD : Nat := 200

def MAX_ALERTS_PER_RUN : Nat := 500

/-- Candidate alert dict produced by the detection rules (rules.py header
comment): alert_type, src_ip or None, dst_ip or None, score, evidence. -/
structure Cand where
  alert_type : String
  src_ip : Option String
  dst_ip : Option String
  score : Nat
  evidence : List (String × JVal)
  enrichment : Option (List (String × JVal)) := none

/-- Rows of the window, i.e. WHERE timestamp >= since. -/
def windowEvents (evs : List IpEvent) (since_iso : String) : List IpEvent :=
  evs.filter fun e => strLe since_iso e.timestamp

/-- Rows of one GROUP BY src_ip group. -/
def rowsForSrc (evs : List IpEvent) (s : String) : List IpEvent :=
  evs.filter fun e => e.src_ip == s

/-- COUNT(DISTINCT dst_ip) within the group of s. -/
def dstCountIn (evs : List IpEvent) (s : String) : Nat :=
  (distinctKeys ((rowsForSrc evs s).map (·.dst_ip))).length

/-- COUNT(*) within the group of s. -/
def connCountIn (evs : List IpEvent) (s : String) : Nat :=
  (rowsForSrc evs s).length

/-- One aggregated group of the horizontal-scan query. -/
structure HGroup where
  src_ip : String
  dst_count : Nat
  conn_count : Nat
deriving DecidableEq, Repr

def horizontalGroups (evs : List IpEvent) : List HGroup :=
  (distinctKeys (evs.map (·.src_ip))).map fun s =>
    { src_ip := s, dst_count := dstCountIn evs s, conn_count := connCountIn evs s }

/-- HAVING dst_count > ? OR conn_count > ? of the horizontal-scan query. -/
def horizontalHaving (g : HGroup) : Bool :=
  decide (HORIZONTAL_DST_IP_THRESHOLD < g.dst_count)
    || decide (HORIZONTAL_CONN_THRESHOLD < g.conn_count)

/-- ORDER BY dst_count DESC, conn_count DESC. -/
def horizontalOrder (a b : HGroup) : Prop :=
  b.dst_count < a.dst_count ∨ (b.dst_count = a.dst_count ∧ b.conn_count ≤ a.conn_count)

instance : DecidableRel horizontalOrder := fun a b => by
  unfold horizontalOrder
  infer_instance

/-- detect_horizontal_scans of rules.py: window filter, GROUP BY src_ip,
HAVING, ORDER BY, LIMIT, then one candidate dict per surviving row. -/
def detect_horizontal_scans (evs : List IpEvent) (since_iso : String)
    (limit : Nat := 200) : List Cand :=
  let win := windowEvents evs since_iso
  let flagged := (horizontalGroups win).filter horizontalHaving
  let ordered := List.insertionSort horizontalOrder flagged
  (ordered.take limit).map fun g =>
    { alert_type := "horizontal_scan"
      src_ip := some g.src_ip
      dst_ip := none
      score := min 100 (g.dst_count + g.conn_count / 10)
      evidence := [("dst_count", .jint g.dst_count), ("conn_count", .jint g.conn_count),
        ("since", .jstr since_iso)] }

/-- Rows of one GROUP BY (src_ip, dst_ip) group. -/
def rowsForPair (evs : List IpEvent) (k : String × String) : List IpEvent :=
  evs.filter fun e => (e.src_ip, e.dst_ip) == k

/-- COUNT(DISTINCT dst_port) within the group of (s, d). -/
def portsCountIn (evs : List IpEvent) (k : String × String) : Nat :=
  (distinctKeys ((rowsForPair evs k).map (·.dst_port))).length

/-- One aggregated group of the vertical-scan query. -/
structure VGroup where
  src_ip : String
  dst_ip : String
  ports : Nat
deriving DecidableEq, Repr

def verticalGroups (evs : List IpEvent) : List VGroup :=
  (distinctKeys (evs.map fun e => (e.src_ip, e.dst_ip))).map fun k =>
    { src_ip := k.1, dst_ip := k.2, ports := portsCountIn evs k }

/-- HAVING ports > ? of the vertical-scan query. -/
def verticalHaving (g : VGroup) : Bool :=
  decide (VERTICAL_PORTS_THRESHOLD < g.ports)

/-- ORDER BY ports DESC. -/
def verticalOrder (a b : VGroup) : Prop := b.ports ≤ a.ports

instance : DecidableRel verticalOrder := fun a b => by
  unfold verticalOrder
  infer_instance

/-- detect_vertical_scans of rules.py. -/
def detect_vertical_scans (evs : List IpEvent) (since_iso : String)
    (limit : Nat := 200) : List Cand :=
  let win := windowEvents evs since_iso
  let flagged := (verticalGroups win).filter verticalHaving
  let ordered := List.insertionSort verticalOrder flagged
  (ordered.take limit).map fun g =>
    { alert_type := "vertical_scan"
      src_ip := some g.src_ip
      dst_ip := some g.dst_ip
      score := min 100 g.ports
      evidence := [("ports", .jint g.ports), ("since", .jstr since_iso)] }

/-- One aggregated group of the high-connection-volume query. -/
structure RGroup where
  src_ip : String
  total_conns : Nat
deriving DecidableEq, Repr

def repeatedGroups (evs : List IpEvent) : List RGroup :=
  (distinctKeys (evs.map (·.src_ip))).map fun s =>
    { src_ip := s, total_conns := connCountIn evs s }

/-- HAVING total_conns > ? of the high-connection-volume query. -/
def repeatedHaving (g : RGroup) : Bool :=
  decide (REPEATED_CONN_THRESHOLD < g.total_conns)

/-- ORDER BY total_conns DESC. -/
def repeatedOrder (a b : RGroup) : Prop := b.total_conns ≤ a.total_conns

instance : DecidableRel repeatedOrder := fun a b => by
  unfold repeatedOrder
  infer_instance

/-- detect_repeated_connections of rules.py. -/
def detect_repeated_connections (evs : List IpEvent) (since_iso : String)
    (limit : Nat := 200) : List Cand :=
  let win := windowEvents evs since_iso
  let flagged := (repeatedGroups win).filter repeatedHaving
  let ordered := List.insertionSort repeatedOrder flagged
  (ordered.take limit).map fun g =>
    { alert_type := "high_connection_volume"
      src_ip := some g.src_ip
      dst_ip := none
      score := min 100 (g.total_conns / 2)
      evidence := [("total_conns", .jint g.total_conns), ("since", .jstr since_iso)] }

/-- Dedup key used by run_all_rules. -/
def candKey (a : Cand) : String × Option String × Option String :=
  (a.alert_type, a.src_ip, a.dst_ip)

/-- In-run dedup loop of run_all_rules: keep the first candidate of each
(alert_type, src_ip, dst_ip) key, tracking seen keys. -/
def dedupCands : List Cand → List (String × Option String × Option String) → List Cand
  | [], _ => []
  | a :: as, seen =>
    if candKey a ∈ seen then dedupCands as seen
    else a :: dedupCands as (candKey a :: seen)

/-- run_all_rules of rules.py: a None max_alerts falls back to
MAX_ALERTS_PER_RUN, and that same value is passed as the limit of every rule;
the concatenation is deduplicated and not capped any further. -/
def run_all_rules (evs : List IpEvent) (since_iso : String)
    (max_alerts : Option Nat) : List Cand :=
  let m := max_alerts.getD MAX_ALERTS_PER_RUN
  let alerts := detect_horizontal_scans evs since_iso m
    ++ detect_vertical_scans evs since_iso m
    ++ detect_repeated_connections evs since_iso m
  dedupCands alerts []

/-! Dedup and alert writer (scout.py): the scout_alerts table, its unique
index, and insert_alert. -/

/-- One row of scout_alerts as created by ensure_alerts_table. -/
structure AlertRow where
  id : Nat
  alert_type : String
  src_ip : Option String
  dst_ip : Option String
  score : Nat
  evidence_json : List (String × JVal)
  enrichment_json : Option (List (String × JVal))
  status : String := "new"
  created_at : String

/-- Equality of two nullable TEXT values as a SQLite unique index sees it:
NULL compares unequal to everything, including another NULL (SQLite treats
all NULLs as distinct for uniqueness). -/
def sqlEq : Option String → Option String → Bool
  | some a, some b => a == b
  | _, _ => false

/-- SQLite date() on the RFC3339 UTC strings produced by to_utc_z of scout.py
(YYYY-MM-DDTHH:MM:SS[.ffffff]Z): the calendar day is the first ten
characters. -/
def sqlDate (ts : String) : String := ts.take 10

/-- Violation test of the unique index
ux_scout_alerts_unique(alert_type, src_ip, dst_ip, date(created_at)):
the candidate row conflicts with an existing row only when every indexed
value compares equal, which a NULL never does. -/
def uxConflict (r s : AlertRow) : Bool :=
  r.alert_type == s.alert_type && sqlEq r.src_ip s.src_ip && sqlEq r.dst_ip s.dst_ip
    && sqlDate r.created_at == sqlDate s.created_at

/-- Serialized enrichment column: json.dumps(alert.get("enrichment")) if the
enrichment dict is truthy, else NULL; an absent or empty dict is falsy. -/
def enrichmentColumn (a : Cand) : Option (List (String × JVal)) :=
  match a.enrichment with
  | none => none
  | some e => if e.isEmpty then none else some e

/-- insert_alert of scout.py: in dry-run mode print and return without
touching the table; otherwise INSERT OR IGNORE under the unique index, so the
row is appended exactly when no existing row conflicts.  The id column is the
AUTOINCREMENT rowid; now is the wall-clock to_utc_z() timestamp stamped into
created_at. -/
def insert_alert (table : List AlertRow) (alert : Cand) (dry_run : Bool)
    (now : String) : List AlertRow :=
  if dry_run then table
  else
    let row : AlertRow :=
      { id := table.length + 1
        alert_type := alert.alert_type
        src_ip := alert.src_ip
        dst_ip := alert.dst_ip
        score := alert.score
        evidence_json := alert.evidence
        enrichment_json := enrichmentColumn alert
        created_at := now }
    if table.any fun r => uxConflict r row then table else table ++ [row]

/-- The insertion loop at the end of run_scan: every candidate is passed to
insert_alert with the run dry_run flag. -/
def insertAll (table : List AlertRow) (cands : List Cand) (dry_run : Bool)
    (now : String) : List AlertRow :=
  cands.foldl (fun t a => insert_alert t a dry_run now) table

/-! Enrichment subsystem (enrich.py): cache table, providers, and the
per-subject orchestration enrich_subject. -/

/-- One row of the scout_enrichment_cache table.  The UNIQUE subject column
holds the composite key kind:subject; since the four kind names are fixed
colon-free literals that encoding is injective, so the composite string is
modelled as the pair (kind, subject). -/
structure CacheRow where
  subject : String × String
  kind : String
  result_json : JVal
  updated_at : String

/-- cache_get of enrich.py: SELECT result_json, updated_at by subject key.
The json.loads of a row written by cache_set always succeeds, so the parse
failure branch (return None) is unreachable for such rows and the stored
value is returned directly. -/
def cache_get (cache : List CacheRow) (subject : String × String) :
    Option (JVal × String) :=
  match cache.find? fun r => r.subject == subject with
  | none => none
  | some r => some (r.result_json, r.updated_at)

/-- cache_set of enrich.py: INSERT with ON CONFLICT(subject) DO UPDATE, i.e.
an upsert keyed on the subject column that overwrites kind, result_json and
updated_at in place (last write wins), or appends a fresh row. -/
def cache_set (cache : List CacheRow) (subject : String × String) (kind : String)
    (result : JVal) (now : String) : List CacheRow :=
  if cache.any fun r => r.subject == subject then
    cache.map fun r =>
      if r.subject == subject then
        { r with kind := kind, result_json := result, updated_at := now }
      else r
  else cache ++ [{ subject := subject, kind := kind, result_json := result, updated_at := now }]

/-- Environment of external lookups: what each provider would answer for a
subject, plus whether the passive-DNS credentials (PDNS_API_URL and
PDNS_API_KEY) are configured. -/
structure Providers where
  rdnsFn : String → Option String
  whoisFn : String → Option String
  trFn : String → String
  pdnsFn : String → JVal
  hasPdnsCreds : Bool

/-- Enable toggles of config.py (all default to true). -/
structure EnrichConfig where
  enableRdns : Bool := true
  enableWhois : Bool := true
  enableTraceroute : Bool := true

/-- Result of a provider that returns a string or None, as stored in JSON. -/
def optStrVal : Option String → JVal
  | none => .jnull
  | some s => .jstr s

def optJVal : Option JVal → JVal
  | none => .jnull
  | some v => v

/-- pdns_lookup of enrich.py: with no credentials configured it returns None
before attempting any request; with credentials it performs the HTTP lookup,
whose (possibly error-payload) response is the environment answer. -/
def pdns_lookup (p : Providers) (subject : String) : Option JVal :=
  if p.hasPdnsCreds then some (p.pdnsFn subject) else none

/-- Observable effects of one enrich_subject run: a provider invocation (the
cache-miss external call of the spec) and the politeness delay
time.sleep(ENRICHMENT_SLEEP), tagged with the kind whose block emitted it. -/
inductive EnEffect where
  | call : String → EnEffect
  | sleep : String → EnEffect
deriving DecidableEq, Repr

/-- State threaded through the four provider blocks of enrich_subject:
result dict built so far, cache table, and the effect trace. -/
structure EnSt where
  result : List (String × JVal)
  cache : List CacheRow
  trace : List EnEffect

/-- One provider block of enrich_subject, shared by the four kinds: when the
kind is requested (and enabled), check the cache first; on a hit reuse the
stored result with no external call and no delay; on a miss invoke the
provider, store the result under kind:subject, and sleep the politeness
delay. -/
def runBlock (guard : Bool) (kind subject : String) (provider : Unit → JVal)
    (now : String) (st : EnSt) : EnSt :=
  if guard then
    match cache_get st.cache (kind, subject) with
    | some (v, _) => { st with result := st.result ++ [(kind, v)] }
    | none =>
      let v := provider ()
      { result := st.result ++ [(kind, v)]
        cache := cache_set st.cache (kind, subject) kind v now
        trace := st.trace ++ [.call kind, .sleep kind] }
  else st

/-- enrich_subject of enrich.py: rdns, whois and traceroute run when requested
and enabled; pdns runs whenever requested (the credential check lives inside
pdns_lookup, which returns None without an external request when credentials
are missing — that None is still cached and still followed by the delay). -/
def enrich_subject (p : Providers) (cfg : EnrichConfig) (cache : List CacheRow)
    (subject : String) (kinds : List String) (now : String) : EnSt :=
  let st0 : EnSt := { result := [], cache := cache, trace := [] }
  let st1 := runBlock (kinds.contains "rdns" && cfg.enableRdns) "rdns" subject
    (fun _ => optStrVal (p.rdnsFn subject)) now st0
  let st2 := runBlock (kinds.contains "whois" && cfg.enableWhois) "whois" subject
    (fun _ => optStrVal (p.whoisFn subject)) now st1
  let st3 := runBlock (kinds.contains "traceroute" && cfg.enableTraceroute) "traceroute" subject
    (fun _ => .jstr (p.trFn subject)) now st2
  runBlock (kinds.contains "pdns") "pdns" subject
    (fun _ => optJVal (pdns_lookup p subject)) now st3

/-- Whether enrich_subject processes a given kind at all: the guard of the
corresponding block. -/
def requestedAndEnabled (cfg : EnrichConfig) (kinds : List String) (k : String) : Bool :=
  if k == "rdns" then kinds.contains "rdns" && cfg.enableRdns
  else if k == "whois" then kinds.contains "whois" && cfg.enableWhois
  else if k == "traceroute" then kinds.contains "traceroute" && cfg.enableTraceroute
  else if k == "pdns" then kinds.contains "pdns"
  else false

/-- Number of provider invocations for a kind in a trace. -/
def callCount (k : String) (tr : List EnEffect) : Nat :=
  (tr.filter fun e => e == .call k).length

/-- Number of politeness delays emitted by the block of a kind in a trace. -/
def sleepCount (k : String) (tr : List EnEffect) : Nat :=
  (tr.filter fun e => e == .sleep k).length

/-- The cache keys are pairwise distinct (SQLite UNIQUE(subject)). -/
def cacheKeysNodup (cache : List CacheRow) : Prop :=
  (cache.map (·.subject)).Nodup

/-! Path-trace parser (ui.py, parse_traceroute_text).  The regular
expressions of the source are compiled by hand into total scanning functions;
each function carries the backtracking argument that justifies the
translation. -/

/-- Python str.strip / regex class \s on the ASCII whitespace actually
occurring in traceroute output (the Unicode-only space classes Python also
strips never appear there and are out of scope of this model). -/
def isPySpace (c : Char) : Bool :=
  c = ' ' || c = '\t' || c = '\n' || c = '\x0b' || c = '\x0c' || c = '\r'

/-- Line boundary characters of Python str.splitlines. -/
def isLineBreak (c : Char) : Bool :=
  c = '\n' || c = '\r' || c = '\x0b' || c = '\x0c' || c = '\x1c' || c = '\x1d'
    || c = '\x1e' || c = '\x85' || c = '\u2028' || c = '\u2029'

/-- Python str.splitlines: split at line-break characters, treating a CRLF
pair as a single boundary, with no trailing empty line. -/
def splitlinesGo : List Char → List Char → List String
  | [], acc => if acc.isEmpty then [] else [String.mk acc.reverse]
  | '\r' :: '\n' :: rest, acc => String.mk acc.reverse :: splitlinesGo rest []
  | c :: rest, acc =>
    if isLineBreak c then String.mk acc.reverse :: splitlinesGo rest []
    else splitlinesGo rest (c :: acc)

def pySplitlines (s : String) : List String := splitlinesGo s.data []

/-- Python str.strip(): drop leading and trailing whitespace. -/
def pyStrip (s : String) : String :=
  String.mk (((s.data.dropWhile isPySpace).reverse.dropWhile isPySpace).reverse)

/-- Python str.startswith("*"). -/
def startsWithStar (s : String) : Bool :=
  match s.data with
  | '*' :: _ => true
  | _ => false

/-- Numeric value of a digit run (Python int on the captured group). -/
def natOfDigits (ds : List Char) : Nat :=
  ds.foldl (fun n c => n * 10 + (c.toNat - 48)) 0

/-- Leading whole-line match of the hop-header regex (anchored backslash-s
star, a digit group, backslash-s plus, then the rest of the line), followed
by the strip() the source applies to the remainder group.  Backtracking note:
the whitespace-plus atom can only match right after the maximal digit run
(giving digits back leaves a digit under it), so the translation with maximal
runs is exact. -/
def hopHeader (s : String) : Option (Nat × String) :=
  let cs := s.data.dropWhile isPySpace
  let digits := cs.takeWhile (·.isDigit)
  let rest0 := cs.dropWhile (·.isDigit)
  if digits.isEmpty then none
  else if (rest0.takeWhile isPySpace).isEmpty then none
  else some (natOfDigits digits, pyStrip (String.mk (rest0.dropWhile isPySpace)))

/-- Match one IPv4 octet (the regex atom of one to three digits) followed by
a required separator character.  Backtracking note: every shorter split of
the digit run leaves a digit where the non-digit separator must match, so the
octet is forced to be the maximal digit run, of length one to three. -/
def octetThen (cs : List Char) (sep : Char) : Option (List Char × List Char) :=
  let ds := cs.takeWhile (·.isDigit)
  let r := cs.dropWhile (·.isDigit)
  if 1 ≤ ds.length ∧ ds.length ≤ 3 then
    match r with
    | c :: r2 => if c = sep then some (ds, r2) else none
    | [] => none
  else none

/-- Match the final unconstrained octet of the bare-IP regex: one to three
digits taken greedily. -/
def octetFinal (cs : List Char) : Option (List Char × List Char) :=
  let ds := (cs.takeWhile (·.isDigit)).take 3
  if ds.isEmpty then none else some (ds, cs.drop ds.length)

/-- Attempt of the parenthesized-IP regex body right after an opening
parenthesis: three dot-separated octets, a final octet, then the closing
parenthesis; the captured group is the dotted quad. -/
def matchParenIpAt (cs : List Char) : Option String :=
  match octetThen cs '.' with
  | none => none
  | some (d1, r1) =>
    match octetThen r1 '.' with
    | none => none
    | some (d2, r2) =>
      match octetThen r2 '.' with
      | none => none
      | some (d3, r3) =>
        match octetThen r3 ')' with
        | none => none
        | some (d4, _) =>
          some (String.mk (d1 ++ '.' :: (d2 ++ '.' :: (d3 ++ '.' :: d4))))

/-- re.search of the parenthesized-IPv4 pattern: leftmost position whose
character is an opening parenthesis followed by a full body match; returns
the index of the parenthesis (pm.start()) and the captured quad. -/
def findParenIp : List Char → Option (Nat × String)
  | [] => none
  | c :: rest =>
    if c = '(' then
      match matchParenIpAt rest with
      | some ip => some (0, ip)
      | none => (findParenIp rest).map fun p => (p.1 + 1, p.2)
    else (findParenIp rest).map fun p => (p.1 + 1, p.2)

/-- Attempt of the bare-IPv4 pattern at one position: three dot-separated
octets and a greedy final octet. -/
def matchBareIpAt (cs : List Char) : Option String :=
  match octetThen cs '.' with
  | none => none
  | some (d1, r1) =>
    match octetThen r1 '.' with
    | none => none
    | some (d2, r2) =>
      match octetThen r2 '.' with
      | none => none
      | some (d3, r3) =>
        match octetFinal r3 with
        | none => none
        | some (d4, _) =>
          some (String.mk (d1 ++ '.' :: (d2 ++ '.' :: (d3 ++ '.' :: d4))))

/-- re.search of the bare-IPv4 pattern: leftmost matching position (a match
may begin inside a digit run, as re.search retries every offset), with its
index (im.start()) and captured quad. -/
def findBareIp : List Char → Option (Nat × String)
  | [] => none
  | c :: rest =>
    match matchBareIpAt (c :: rest) with
    | some ip => some (0, ip)
    | none => (findBareIp rest).map fun p => (p.1 + 1, p.2)

/-- Attempt of the round-trip-time pattern (digits, dot, digits, optional
whitespace, the letters m and s) at one position; returns the captured
decimal token and the remainder after the whole match.  Backtracking note:
each digits-plus atom is forced to the maximal run (a shorter split leaves a
digit where a dot, a space or the letter m must match), and the greedy
whitespace-star atom is forced to the maximal run likewise. -/
def matchTimeAt (cs : List Char) : Option (String × List Char) :=
  let d1 := cs.takeWhile (·.isDigit)
  let r1 := cs.dropWhile (·.isDigit)
  if d1.isEmpty then none
  else
    match r1 with
    | '.' :: r2 =>
      let d2 := r2.takeWhile (·.isDigit)
      let r3 := r2.dropWhile (·.isDigit)
      if d2.isEmpty then none
      else
        match r3.dropWhile isPySpace with
        | 'm' :: 's' :: r5 => some (String.mk (d1 ++ '.' :: d2), r5)
        | _ => none
    | _ => none

/-- Scanning loop of re.findall for the round-trip-time pattern: try every
position left to right and resume after the end of each (non-overlapping)
match.  Every step consumes at least one character, so fuel equal to the
length of the scanned text makes the bounded recursion exact. -/
def findTimesGo : Nat → List Char → List String
  | 0, _ => []
  | _, [] => []
  | fuel + 1, c :: rest =>
    match matchTimeAt (c :: rest) with
    | some (tok, r) => tok :: findTimesGo fuel r
    | none => findTimesGo fuel rest

def findTimes (cs : List Char) : List String := findTimesGo cs.length cs

/-- Exact rational value of a decimal token such as 0.710; Python float() of
the token denotes the same decimal number (rounded to a double only at the
representation level, which this model does not need to reproduce since the
values are only stored and compared as printed decimals). -/
def decimalVal (tok : String) : ℚ :=
  let int_part := tok.data.takeWhile (·.isDigit)
  let frac := (tok.data.dropWhile (·.isDigit)).drop 1
  (natOfDigits int_part : ℚ) + (natOfDigits frac : ℚ) / ((10 : ℚ) ^ frac.length)

/-- Hop record of the parser: hop number, optional IP and display name,
round-trip times, and the stripped original line; the geo attributes are
attached later by geo_enrich_hops and absent until then. -/
structure Hop where
  hop : Nat
  ip : Option String
  rdns : Option String
  times : List ℚ
  output : String
  lat : Option ℚ := none
  lon : Option ℚ := none
  country : Option String := none
  state : Option String := none
  city : Option String := none
deriving DecidableEq, Repr

/-- First whitespace-separated token (Python split()[0] of a stripped
non-empty string). -/
def firstToken (s : String) : String :=
  String.mk ((s.data.dropWhile isPySpace).takeWhile fun c => !isPySpace c)

/-- Per-line step of parse_traceroute_text: strip the line; skip it when
empty or when the hop-header regex fails; emit an empty no-response hop when
the remainder starts with an asterisk; otherwise take the parenthesized IP
(display name is everything before the parenthesis) or the first bare IP
(display name is the first token before it unless that text starts with an
asterisk), and collect all round-trip-time tokens. -/
def lineToHop (rawLine : String) : Option Hop :=
  let line := pyStrip rawLine
  if line.data.isEmpty then none
  else
    match hopHeader line with
    | none => none
    | some (hopnum, rest) =>
      if startsWithStar rest then
        some { hop := hopnum, ip := none, rdns := none, times := [], output := line }
      else
        let restCs := rest.data
        let times := (findTimes restCs).map decimalVal
        match findParenIp restCs with
        | some (i, ip) =>
          let before := pyStrip (String.mk (restCs.take i))
          some { hop := hopnum, ip := some ip,
                 rdns := if before.data.isEmpty then none else some before,
                 times := times, output := line }
        | none =>
          match findBareIp restCs with
          | some (i, ip) =>
            let before := pyStrip (String.mk (restCs.take i))
            some { hop := hopnum, ip := some ip,
                   rdns := if !before.data.isEmpty && !startsWithStar before
                     then some (firstToken before) else none,
                   times := times, output := line }
          | none =>
            some { hop := hopnum, ip := none, rdns := none, times := times, output := line }

/-- Hop records of a list of lines, in line order, unparseable lines
omitted. -/
def parseHopLines (lines : List String) : List Hop :=
  lines.filterMap lineToHop

/-- parse_traceroute_text of ui.py. -/
def parse_traceroute_text (raw_text : String) : List Hop :=
  parseHopLines (pySplitlines raw_text)

/-! Geo correlator (ui.py, geo_enrich_hops). -/

/-- Geo attributes of one map entry built from an event row. -/
structure GeoInfo where
  lat : Option ℚ
  lon : Option ℚ
  country : Option String
  state : Option String
  city : Option String
deriving DecidableEq, Repr

/-- Python exceptions the translated fragment can raise. -/
inductive PyErr where
  | attributeError : PyErr
deriving DecidableEq, Repr

/-- Python r.get(field) on a sqlite3.Row: Row objects support subscripting
and keys() but define no get method, so this attribute access raises
AttributeError unconditionally (the subscript accesses r["latitude"] and
r["longitude"] on the same row succeed and are modelled as plain field
reads). -/
def rowGet (_r : IpEvent) (_field : String) : Except PyErr (Option String) :=
  .error .attributeError

/-- The geo_map value dict literal of geo_enrich_hops, evaluated left to
right: the two subscript reads succeed, then the first r.get call raises. -/
def geoEntry (r : IpEvent) : Except PyErr GeoInfo := do
  let lat := r.latitude
  let lon := r.longitude
  let country ← rowGet r "country"
  let state ← rowGet r "region"
  let city ← rowGet r "city"
  pure { lat := lat, lon := lon, country := country, state := state, city := city }

/-- One candidate step of the geo_map loop: a truthy (non-empty) candidate
not yet in the map gets an entry built from the current row. -/
def addCandidate (m : List (String × GeoInfo)) (cand : String) (r : IpEvent) :
    Except PyErr (List (String × GeoInfo)) :=
  if !cand.isEmpty && (m.lookup cand).isNone then
    (geoEntry r).map fun g => m ++ [(cand, g)]
  else pure m

/-- The geo_map building loop over the (timestamp-descending) rows: for each
row, try src_ip then dst_ip as candidates; an exception raised while building
an entry propagates out of the loop. -/
def buildGeoMap : List IpEvent → List (String × GeoInfo) →
    Except PyErr (List (String × GeoInfo))
  | [], m => .ok m
  | r :: rs, m =>
    match addCandidate m r.src_ip r with
    | .error e => .error e
    | .ok m1 =>
      match addCandidate m1 r.dst_ip r with
      | .error e => .error e
      | .ok m2 => buildGeoMap rs m2

/-- The attach loop: a hop with a truthy IP present in the map receives the
five geo attributes of its entry. -/
def attachGeo (m : List (String × GeoInfo)) (h : Hop) : Hop :=
  match h.ip with
  | none => h
  | some ip =>
    if ip.isEmpty then h
    else
      match m.lookup ip with
      | none => h
      | some g =>
        { h with lat := g.lat, lon := g.lon, country := g.country,
                 state := g.state, city := g.city }

/-- ORDER BY timestamp DESC of the geo query. -/
def geoRowOrder (a b : IpEvent) : Prop := strLe b.timestamp a.timestamp = true

instance : DecidableRel geoRowOrder := fun a b => by
  unfold geoRowOrder
  infer_instance

/-- The WHERE clause of the geo query: either endpoint among the looked-up
IPs, latitude and longitude non-NULL. -/
def geoRowPred (ips : List String) (e : IpEvent) : Bool :=
  (decide (e.src_ip ∈ ips) || decide (e.dst_ip ∈ ips))
    && e.latitude.isSome && e.longitude.isSome

/-- geo_enrich_hops of ui.py: collect the truthy hop IPs (unique, first
occurrence first); if none, return the hops unchanged; otherwise query the
qualifying events newest first and build the geo map — whose construction
raises AttributeError on the first row (rowGet above), caught by the
bare except and leaving every hop unchanged; only when the row set is empty
does the build succeed, with an empty map attaching nothing. -/
def geo_enrich_hops (events : List IpEvent) (hops : List Hop) : List Hop :=
  let ips := distinctKeys ((hops.filterMap (·.ip)).filter fun s => !s.isEmpty)
  if ips.isEmpty then hops
  else
    let rows := List.insertionSort geoRowOrder (events.filter (geoRowPred ips))
    match buildGeoMap rows [] with
    | .error _ => hops
    | .ok gm => hops.map (attachGeo gm)

/-! Concrete stores and inputs used by the counterexamples and witnesses. -/

/-- A horizontal-scan candidate: its dst_ip is absent by construction. -/
def c1Alert : Cand :=
  { alert_type := "horizontal_scan", src_ip := some "10.0.0.5", dst_ip := none,
    score := 60,
    evidence := [("dst_count", .jint 60), ("conn_count", .jint 60),
      ("since", .jstr "2025-10-12T07:00:00Z")] }

/-- Source address number i of the large store (an arbitrary TEXT value;
injective in i by length). -/
def srcS (i : Nat) : String := String.mk (List.replicate (i + 1) 'a')

/-- Destination address number j of the large store (injective in j by
length, shared across sources). -/
def dstS (j : Nat) : String := String.mk (List.replicate (j + 1) 'b')

def bigEvent (i j : Nat) : IpEvent :=
  { timestamp := "t", src_ip := srcS i, dst_ip := dstS j, dst_port := 0 }

/-- A store with 201 sources, each contacting 51 distinct destinations once:
every source is flagged by the horizontal rule (51 > 50 distinct
destinations) and by no other rule (1 port per pair, 51 <= 200 events per
source). -/
def bigStore : List IpEvent :=
  (List.range 201).flatMap fun i => (List.range 51).map fun j => bigEvent i j

/-- A store in which source s reaches exactly 50 distinct destinations
(the horizontal threshold) but with 201 total connections
(above the connection threshold). -/
def c4Events : List IpEvent :=
  ((List.range 50).map fun j =>
    { timestamp := "t", src_ip := "s", dst_ip := s!"d{j}", dst_port := 0 : IpEvent })
  ++ List.replicate 151
    { timestamp := "t", src_ip := "s", dst_ip := "d0", dst_port := 0 : IpEvent }

/-- Boundary stores for the witness of the amended threshold claim. -/
def wHorizAt : List IpEvent :=
  (List.range 50).map fun j =>
    { timestamp := "t", src_ip := "s", dst_ip := s!"d{j}", dst_port := 0 }

def wHorizAbove : List IpEvent :=
  (List.range 51).map fun j =>
    { timestamp := "t", src_ip := "s", dst_ip := s!"d{j}", dst_port := 0 }

def wVertAt : List IpEvent :=
  (List.range 50).map fun j =>
    { timestamp := "t", src_ip := "s", dst_ip := "d", dst_port := j }

def wVertAbove : List IpEvent :=
  (List.range 51).map fun j =>
    { timestamp := "t", src_ip := "s", dst_ip := "d", dst_port := j }

def wRepAt : List IpEvent :=
  List.replicate 200 { timestamp := "t", src_ip := "s", dst_ip := "d", dst_port := 0 }

def wRepAbove : List IpEvent :=
  List.replicate 201 { timestamp := "t", src_ip := "s", dst_ip := "d", dst_port := 0 }

/-- A provider environment for the cache witnesses. -/
def wProviders : Providers :=
  { rdnsFn := fun _ => some "host.example"
    whoisFn := fun _ => none
    trFn := fun _ => "traceroute output"
    pdnsFn := fun _ => .jstr "pdns payload"
    hasPdnsCreds := false }

/-- The same environment with passive-DNS credentials configured. -/
def wProvidersCreds : Providers :=
  { wProviders with hasPdnsCreds := true }

/-- A hop and a qualifying event for the geo-correlator claim: the event
mentions the hop IP as source endpoint and carries non-NULL coordinates. -/
def geoHop : Hop :=
  { hop := 1, ip := some "9.9.9.9", rdns := none, times := [], output := "1 9.9.9.9 1.0 ms" }

def geoEvent : IpEvent :=
  { timestamp := "2025-01-02T00:00:00Z", src_ip := "9.9.9.9", dst_ip := "10.0.0.1",
    dst_port := 443, latitude := some 1.5, longitude := some 2.5,
    country := some "DE", region := some "BY", city := some "Munich" }

end NetScout

namespace NetScout

/-! General lemmas about the grouping and dedup primitives. -/

theorem distinctAux_congr {α : Type} [DecidableEq α] :
    ∀ (l s1 s2 : List α), (∀ a, a ∈ s1 ↔ a ∈ s2) → distinctAux l s1 = distinctAux l s2 := by
  intro l
  induction l with
  | nil => intro s1 s2 _; rfl
  | cons x xs ih =>
    intro s1 s2 hs
    simp only [distinctAux]
    by_cases hx : x ∈ s1
    · rw [if_pos hx, if_pos ((hs x).mp hx)]
      exact ih s1 s2 hs
    · rw [if_neg hx, if_neg (fun h => hx ((hs x).mpr h))]
      congr 1
      refine ih _ _ fun a => ?_
      simp [hs a]

theorem distinctAux_filter {α : Type} [DecidableEq α] (x : α) :
    ∀ (l seen : List α), distinctAux l (x :: seen) = distinctAux (l.filter fun y => y != x) seen := by
  intro l
  induction l with
  | nil => intro seen; rfl
  | cons y ys ih =>
    intro seen
    by_cases hyx : y = x
    · subst hyx
      simp only [distinctAux, List.filter_cons]
      rw [if_pos (List.mem_cons_self _ _)]
      simp only [bne_self_eq_false]
      exact ih seen
    · simp only [distinctAux, List.filter_cons]
      have hbne : (y != x) = true := bne_iff_ne.mpr hyx
      rw [hbne]
      by_cases hseen : y ∈ seen
      · rw [if_pos (List.mem_cons_of_mem _ hseen)]
        simp only [distinctAux]
        rw [if_pos hseen]
        exact ih seen
      · have : y ∉ x :: seen := by
          intro h
          rcases List.mem_cons.mp h with h1 | h1
          · exact hyx h1
          · exact hseen h1
        rw [if_neg this]
        simp only [distinctAux]
        rw [if_neg hseen]
        congr 1
        rw [distinctAux_congr ys (y :: x :: seen) (x :: y :: seen) (by intro a; constructor <;>
          (intro h; simp only [List.mem_cons] at h ⊢; tauto))]
        exact ih (y :: seen)

theorem distinctKeys_cons {α : Type} [DecidableEq α] (x : α) (xs : List α) :
    distinctKeys (x :: xs) = x :: distinctKeys (xs.filter fun y => y != x) := by
  simp only [distinctKeys, distinctAux, List.not_mem_nil, if_neg, if_false]
  rw [distinctAux_filter]

theorem mem_distinctAux {α : Type} [DecidableEq α] {a : α} :
    ∀ {l seen : List α}, a ∈ distinctAux l seen ↔ a ∈ l ∧ a ∉ seen := by
  intro l
  induction l with
  | nil => intro seen; simp [distinctAux]
  | cons x xs ih =>
    intro seen
    simp only [distinctAux]
    by_cases hx : x ∈ seen
    · rw [if_pos hx, ih]
      constructor
      · rintro ⟨h1, h2⟩
        exact ⟨List.mem_cons_of_mem _ h1, h2⟩
      · rintro ⟨h1, h2⟩
        rcases List.mem_cons.mp h1 with rfl | h1
        · exact absurd hx h2
        · exact ⟨h1, h2⟩
    · rw [if_neg hx]
      simp only [List.mem_cons, ih, List.mem_cons]
      constructor
      · rintro (rfl | ⟨h1, h2⟩)
        · exact ⟨Or.inl rfl, hx⟩
        · refine ⟨Or.inr h1, fun h => h2 (Or.inr h)⟩
      · rintro ⟨rfl | h1, h2⟩
        · exact Or.inl rfl
        · by_cases hax : a = x
          · exact Or.inl hax
          · exact Or.inr ⟨h1, fun h => (by rcases h with h | h; exact hax h; exact h2 h : False)⟩

theorem mem_distinctKeys {α : Type} [DecidableEq α] {a : α} {l : List α} :
    a ∈ distinctKeys l ↔ a ∈ l := by
  simp [distinctKeys, mem_distinctAux]

theorem distinctAux_nodup {α : Type} [DecidableEq α] :
    ∀ (l seen : List α), (distinctAux l seen).Nodup := by
  intro l
  induction l with
  | nil => intro seen; simp [distinctAux]
  | cons x xs ih =>
    intro seen
    simp only [distinctAux]
    by_cases hx : x ∈ seen
    · rw [if_pos hx]
      exact ih seen
    · rw [if_neg hx]
      refine List.Nodup.cons ?_ (ih (x :: seen))
      intro hmem
      exact (mem_distinctAux.mp hmem).2 (List.mem_cons_self _ _)

theorem distinctKeys_nodup {α : Type} [DecidableEq α] (l : List α) :
    (distinctKeys l).Nodup := distinctAux_nodup l []

theorem distinctAux_eq_self {α : Type} [DecidableEq α] :
    ∀ {l : List α} (seen : List α), l.Nodup → (∀ a ∈ l, a ∉ seen) → distinctAux l seen = l := by
  intro l
  induction l with
  | nil => intro seen _ _; rfl
  | cons x xs ih =>
    intro seen hnd hseen
    simp only [distinctAux]
    rw [if_neg (hseen x (List.mem_cons_self _ _))]
    congr 1
    refine ih _ ((List.nodup_cons.mp hnd).2) fun a ha => ?_
    intro hmem
    rcases List.mem_cons.mp hmem with rfl | h
    · exact (List.nodup_cons.mp hnd).1 ha
    · exact hseen a (List.mem_cons_of_mem _ ha) h

theorem distinctKeys_eq_self {α : Type} [DecidableEq α] {l : List α} (h : l.Nodup) :
    distinctKeys l = l :=
  distinctAux_eq_self [] h (by simp)

theorem distinctKeys_length_le_one {α : Type} [DecidableEq α] {l : List α} {c : α}
    (h : ∀ y ∈ l, y = c) : (distinctKeys l).length ≤ 1 := by
  cases l with
  | nil => simp [distinctKeys, distinctAux]
  | cons x xs =>
    rw [distinctKeys_cons]
    have : xs.filter (fun y => y != x) = [] := by
      refine List.filter_eq_nil_iff.mpr fun y hy => ?_
      have hy2 : y = c := h y (List.mem_cons_of_mem _ hy)
      have hx2 : x = c := h x (List.mem_cons_self _ _)
      simp [hy2, hx2]
    rw [this]
    simp [distinctKeys, distinctAux]

theorem distinctKeys_block_append {β : Type} [DecidableEq β] {b : List β} (t : List β) {k : β}
    (hb : b ≠ []) (hall : ∀ y ∈ b, y = k) :
    distinctKeys (b ++ t) = k :: distinctKeys (t.filter fun y => y != k) := by
  cases b with
  | nil => exact absurd rfl hb
  | cons x b2 =>
    have hx : x = k := hall x (List.mem_cons_self _ _)
    subst hx
    rw [List.cons_append, distinctKeys_cons, List.filter_append]
    have hb2 : b2.filter (fun y => y != x) = [] := by
      refine List.filter_eq_nil_iff.mpr fun y hy => ?_
      have : y = x := hall y (List.mem_cons_of_mem _ hy)
      simp [this]
    rw [hb2, List.nil_append]

theorem distinctKeys_flatMap {α β : Type} [DecidableEq β] (key : α → β) :
    ∀ (ks : List α) (f : α → List β),
    (ks.map key).Nodup →
    (∀ a ∈ ks, f a ≠ []) →
    (∀ a ∈ ks, ∀ y ∈ f a, y = key a) →
    distinctKeys (ks.flatMap f) = ks.map key := by
  intro ks
  induction ks with
  | nil => intro f _ _ _; simp [distinctKeys, distinctAux]
  | cons a ks ih =>
    intro f hnd hne hall
    rw [List.flatMap_cons]
    rw [distinctKeys_block_append _ (hne a (List.mem_cons_self _ _))
      (hall a (List.mem_cons_self _ _))]
    have hfilter : (ks.flatMap f).filter (fun y => y != key a) = ks.flatMap f := by
      refine List.filter_eq_self.mpr fun y hy => ?_
      obtain ⟨a2, ha2, hy2⟩ := List.mem_flatMap.mp hy
      have hkey : y = key a2 := hall a2 (List.mem_cons_of_mem _ ha2) y hy2
      have hne2 : key a2 ≠ key a := by
        intro heq
        have : key a ∉ ks.map key := (List.nodup_cons.mp (by simpa using hnd)).1
        exact this (heq ▸ List.mem_map_of_mem key ha2)
      simp [hkey, hne2]
    rw [hfilter]
    rw [ih f ((List.nodup_cons.mp (by simpa using hnd)).2)
      (fun a2 h2 => hne a2 (List.mem_cons_of_mem _ h2))
      (fun a2 h2 => hall a2 (List.mem_cons_of_mem _ h2))]
    rfl

theorem flatMap_eq_single {α β : Type} {l : List α} {f : α → List β} {a : α}
    (ha : a ∈ l) (hn : l.Nodup) (hz : ∀ b ∈ l, b ≠ a → f b = []) :
    l.flatMap f = f a := by
  induction l with
  | nil => cases ha
  | cons x xs ih =>
    rw [List.flatMap_cons]
    rcases List.mem_cons.mp ha with rfl | hmem
    · have : xs.flatMap f = [] := by
        refine List.flatMap_eq_nil_iff.mpr fun b hb => ?_
        refine hz b (List.mem_cons_of_mem _ hb) ?_
        intro hba
        exact (List.nodup_cons.mp hn).1 (hba ▸ hb)
      rw [this, List.append_nil]
    · have hx : f x = [] := by
        refine hz x (List.mem_cons_self _ _) ?_
        intro hxa
        exact (List.nodup_cons.mp hn).1 (hxa ▸ hmem)
      rw [hx, List.nil_append]
      exact ih hmem ((List.nodup_cons.mp hn).2)
        (fun b hb => hz b (List.mem_cons_of_mem _ hb))

theorem dedupCands_eq_self :
    ∀ (L : List Cand) (seen : List (String × Option String × Option String)),
    (L.map candKey).Nodup → (∀ a ∈ L, candKey a ∉ seen) → dedupCands L seen = L := by
  intro L
  induction L with
  | nil => intro seen _ _; rfl
  | cons a as ih =>
    intro seen hnd hseen
    rw [dedupCands]
    rw [if_neg (hseen a (List.mem_cons_self _ _))]
    congr 1
    refine ih _ ((List.nodup_cons.mp (by simpa using hnd)).2) fun b hb => ?_
    intro hbmem
    rcases List.mem_cons.mp hbmem with heq | hmem
    · exact (List.nodup_cons.mp (by simpa using hnd)).1 (heq ▸ List.mem_map_of_mem candKey hb)
    · exact hseen b (List.mem_cons_of_mem _ hb) hmem

theorem dedupCands_length_le :
    ∀ (L : List Cand) (seen : List (String × Option String × Option String)),
    (dedupCands L seen).length ≤ L.length := by
  intro L
  induction L with
  | nil => intro seen; simp [dedupCands]
  | cons a as ih =>
    intro seen
    rw [dedupCands]
    by_cases h : candKey a ∈ seen
    · rw [if_pos h]
      exact Nat.le_succ_of_le (ih seen)
    · rw [if_neg h]
      simpa using ih (candKey a :: seen)

end NetScout

namespace NetScout

/-! Lemmas about the rule engine on the large store. -/

theorem srcS_injective : Function.Injective srcS := by
  intro a b h
  have h2 := congrArg (fun s => s.data.length) h
  simp only [srcS, List.length_replicate] at h2
  omega

theorem dstS_injective : Function.Injective dstS := by
  intro a b h
  have h2 := congrArg (fun s => s.data.length) h
  simp only [dstS, List.length_replicate] at h2
  omega

theorem strLe_empty (s : String) : strLe "" s = true := rfl

/-- An empty since bound keeps every event (SQLite BINARY collation: the
empty string precedes every string). -/
theorem windowEvents_empty_since (evs : List IpEvent) : windowEvents evs "" = evs :=
  List.filter_eq_self.mpr fun e _ => strLe_empty e.timestamp

theorem keys_bigStore :
    distinctKeys (bigStore.map (·.src_ip)) = (List.range 201).map srcS := by
  rw [bigStore, List.map_flatMap]
  refine distinctKeys_flatMap srcS _ _ ?_ ?_ ?_
  · exact List.Nodup.map srcS_injective (List.nodup_range 201)
  · intro a _
    simp
  · intro a _ y hy
    simp only [List.map_map, List.mem_map] at hy
    obtain ⟨j, _, rfl⟩ := hy
    rfl

theorem rowsForSrc_bigStore {i : Nat} (hi : i < 201) :
    rowsForSrc bigStore (srcS i) = (List.range 51).map fun j => bigEvent i j := by
  rw [rowsForSrc, bigStore, List.filter_flatMap]
  have hsingle : ∀ i0 ∈ List.range 201, i0 ≠ i →
      (List.filter (fun e => e.src_ip == srcS i) ((List.range 51).map fun j => bigEvent i0 j)) = [] := by
    intro i0 _ hne
    rw [List.filter_map]
    have : ((fun e : IpEvent => e.src_ip == srcS i) ∘ fun j => bigEvent i0 j) = fun _ => false := by
      funext j
      simp only [Function.comp_apply, bigEvent]
      exact beq_eq_false_iff_ne.mpr fun h => hne (srcS_injective h)
    rw [this]
    simp
  rw [flatMap_eq_single (List.mem_range.mpr hi) (List.nodup_range 201) hsingle]
  rw [List.filter_map]
  have : ((fun e : IpEvent => e.src_ip == srcS i) ∘ fun j => bigEvent i j) = fun _ => true := by
    funext j
    simp [bigEvent]
  rw [this]
  simp

theorem dstCountIn_bigStore {i : Nat} (hi : i < 201) :
    dstCountIn bigStore (srcS i) = 51 := by
  rw [dstCountIn, rowsForSrc_bigStore hi, List.map_map]
  have : ((fun e : IpEvent => e.dst_ip) ∘ fun j => bigEvent i j) = dstS := by
    funext j
    rfl
  rw [this]
  rw [distinctKeys_eq_self (List.Nodup.map dstS_injective (List.nodup_range 51))]
  simp

theorem connCountIn_bigStore {i : Nat} (hi : i < 201) :
    connCountIn bigStore (srcS i) = 51 := by
  rw [connCountIn, rowsForSrc_bigStore hi]
  simp

theorem horizontalGroups_bigStore :
    horizontalGroups bigStore =
      (List.range 201).map fun i => { src_ip := srcS i, dst_count := 51, conn_count := 51 } := by
  rw [horizontalGroups, keys_bigStore, List.map_map]
  refine List.map_congr_left fun i hi => ?_
  have hi2 : i < 201 := List.mem_range.mp hi
  simp only [Function.comp_apply]
  rw [dstCountIn_bigStore hi2, connCountIn_bigStore hi2]

theorem detect_h_bigStore_length :
    (detect_horizontal_scans bigStore "" 500).length = 201 := by
  rw [detect_horizontal_scans]
  simp only [windowEvents_empty_since, horizontalGroups_bigStore]
  have hflag : ((List.range 201).map fun i =>
      ({ src_ip := srcS i, dst_count := 51, conn_count := 51 } : HGroup)).filter horizontalHaving
      = (List.range 201).map fun i =>
      ({ src_ip := srcS i, dst_count := 51, conn_count := 51 } : HGroup) := by
    refine List.filter_eq_self.mpr fun g hg => ?_
    obtain ⟨i, _, rfl⟩ := List.mem_map.mp hg
    rfl
  rw [hflag]
  rw [List.length_map, List.length_take,
    (List.perm_insertionSort horizontalOrder _).length_eq]
  simp

/-- The source addresses of the horizontal groups are the distinct keys, so
they are pairwise distinct. -/
theorem horizontalGroups_src_nodup (evs : List IpEvent) :
    ((horizontalGroups evs).map (·.src_ip)).Nodup := by
  rw [horizontalGroups, List.map_map]
  have : ((fun g : HGroup => g.src_ip) ∘ fun s =>
      ({ src_ip := s, dst_count := dstCountIn evs s, conn_count := connCountIn evs s } : HGroup))
      = id := by
    funext s
    rfl
  rw [this, List.map_id]
  exact distinctKeys_nodup _

/-- The candidate keys of the horizontal rule output are pairwise distinct
(one candidate per source address). -/
theorem detect_h_candKey_nodup (evs : List IpEvent) (since_iso : String) (limit : Nat) :
    ((detect_horizontal_scans evs since_iso limit).map candKey).Nodup := by
  simp only [detect_horizontal_scans]
  rw [List.map_map]
  have hfact : (candKey ∘ fun g : HGroup =>
      ({ alert_type := "horizontal_scan", src_ip := some g.src_ip, dst_ip := none,
         score := min 100 (g.dst_count + g.conn_count / 10),
         evidence := [("dst_count", .jint g.dst_count), ("conn_count", .jint g.conn_count),
           ("since", .jstr since_iso)] } : Cand))
      = (fun s => (("horizontal_scan" : String), some s, (none : Option String))) ∘ (·.src_ip) := by
    funext g
    rfl
  rw [hfact, ← List.map_map]
  refine List.Nodup.map ?_ ?_
  · intro a b h
    simpa using congrArg (fun t => t.2.1) h
  · have h1 : ((windowEvents evs since_iso) |> horizontalGroups |>.filter horizontalHaving
        |> List.insertionSort horizontalOrder |>.take limit).map (·.src_ip)
        |>.Sublist ((List.insertionSort horizontalOrder
          ((horizontalGroups (windowEvents evs since_iso)).filter horizontalHaving)).map (·.src_ip)) :=
      List.Sublist.map _ (List.take_sublist _ _)
    refine List.Nodup.sublist h1 ?_
    have hperm := (List.perm_insertionSort horizontalOrder
      ((horizontalGroups (windowEvents evs since_iso)).filter horizontalHaving)).map (·.src_ip)
    rw [hperm.nodup_iff]
    refine List.Nodup.sublist (List.Sublist.map _ (List.filter_sublist _)) ?_
    exact horizontalGroups_src_nodup _

end NetScout

namespace NetScout

theorem bigStore_ports_zero : ∀ e ∈ bigStore, e.dst_port = 0 := by
  intro e he
  simp only [bigStore, List.mem_flatMap, List.mem_map] at he
  obtain ⟨i, _, j, _, rfl⟩ := he
  rfl

theorem detect_v_bigStore : detect_vertical_scans bigStore "" 500 = [] := by
  simp only [detect_vertical_scans, windowEvents_empty_since]
  have h : (verticalGroups bigStore).filter verticalHaving = [] := by
    refine List.filter_eq_nil_iff.mpr fun g hg => ?_
    simp only [verticalGroups, List.mem_map] at hg
    obtain ⟨k, _, rfl⟩ := hg
    have hle : portsCountIn bigStore k ≤ 1 := by
      refine distinctKeys_length_le_one (c := 0) fun y hy => ?_
      simp only [List.mem_map] at hy
      obtain ⟨e, he, rfl⟩ := hy
      exact bigStore_ports_zero e (List.mem_of_mem_filter he)
    simp only [verticalHaving, VERTICAL_PORTS_THRESHOLD, decide_eq_true_eq]
    omega
  rw [h]
  rfl

theorem repeatedGroups_bigStore :
    repeatedGroups bigStore =
      (List.range 201).map fun i => { src_ip := srcS i, total_conns := 51 } := by
  rw [repeatedGroups, keys_bigStore, List.map_map]
  refine List.map_congr_left fun i hi => ?_
  have hi2 : i < 201 := List.mem_range.mp hi
  simp only [Function.comp_apply]
  rw [connCountIn_bigStore hi2]

theorem detect_r_bigStore : detect_repeated_connections bigStore "" 500 = [] := by
  simp only [detect_repeated_connections, windowEvents_empty_since, repeatedGroups_bigStore]
  have h : ((List.range 201).map fun i =>
      ({ src_ip := srcS i, total_conns := 51 } : RGroup)).filter repeatedHaving = [] := by
    refine List.filter_eq_nil_iff.mpr fun g hg => ?_
    obtain ⟨i, _, rfl⟩ := List.mem_map.mp hg
    simp [repeatedHaving, REPEATED_CONN_THRESHOLD]
  rw [h]
  rfl

theorem run_all_rules_bigStore :
    run_all_rules bigStore "" none = detect_horizontal_scans bigStore "" 500 := by
  simp only [run_all_rules, Option.getD_none, MAX_ALERTS_PER_RUN]
  rw [detect_v_bigStore, detect_r_bigStore, List.append_nil, List.append_nil]
  exact dedupCands_eq_self _ [] (detect_h_candKey_nodup bigStore "" 500) (by simp)

theorem detect_h_all_horizontal (evs : List IpEvent) (since_iso : String) (limit : Nat) :
    ∀ c ∈ detect_horizontal_scans evs since_iso limit, c.alert_type = "horizontal_scan" := by
  intro c hc
  simp only [detect_horizontal_scans, List.mem_map] at hc
  obtain ⟨g, _, rfl⟩ := hc
  rfl

theorem detect_h_length_le (evs : List IpEvent) (since_iso : String) (limit : Nat) :
    (detect_horizontal_scans evs since_iso limit).length ≤ limit := by
  simp only [detect_horizontal_scans]
  rw [List.length_map, List.length_take]
  omega

theorem detect_v_length_le (evs : List IpEvent) (since_iso : String) (limit : Nat) :
    (detect_vertical_scans evs since_iso limit).length ≤ limit := by
  simp only [detect_vertical_scans]
  rw [List.length_map, List.length_take]
  omega

theorem detect_r_length_le (evs : List IpEvent) (since_iso : String) (limit : Nat) :
    (detect_repeated_connections evs since_iso limit).length ≤ limit := by
  simp only [detect_repeated_connections]
  rw [List.length_map, List.length_take]
  omega

theorem run_all_rules_length_le (evs : List IpEvent) (since_iso : String) :
    (run_all_rules evs since_iso none).length ≤ 3 * MAX_ALERTS_PER_RUN := by
  simp only [run_all_rules, Option.getD_none]
  refine le_trans (dedupCands_length_le _ []) ?_
  rw [List.length_append, List.length_append]
  have h1 := detect_h_length_le evs since_iso MAX_ALERTS_PER_RUN
  have h2 := detect_v_length_le evs since_iso MAX_ALERTS_PER_RUN
  have h3 := detect_r_length_le evs since_iso MAX_ALERTS_PER_RUN
  omega

end NetScout

namespace NetScout

/-! Boundary lemmas for the three rules (claim about strict > semantics). -/

theorem horizontal_not_in_output {evs : List IpEvent} {since_iso : String} {limit : Nat}
    {s : String}
    (hd : dstCountIn (windowEvents evs since_iso) s ≤ HORIZONTAL_DST_IP_THRESHOLD)
    (hc : connCountIn (windowEvents evs since_iso) s ≤ HORIZONTAL_CONN_THRESHOLD) :
    some s ∉ (detect_horizontal_scans evs since_iso limit).map (·.src_ip) := by
  intro hmem
  simp only [detect_horizontal_scans, List.map_map, List.mem_map, Function.comp_apply] at hmem
  obtain ⟨g, hg, hgs⟩ := hmem
  have hgs2 : g.src_ip = s := by simpa using hgs
  have hg2 : g ∈ (horizontalGroups (windowEvents evs since_iso)).filter horizontalHaving :=
    ((List.perm_insertionSort horizontalOrder _).mem_iff).mp (List.mem_of_mem_take hg)
  have hg3 := List.mem_filter.mp hg2
  obtain ⟨s0, _, hs0eq⟩ := List.mem_map.mp hg3.1
  have hhv := hg3.2
  rw [← hs0eq] at hgs2
  simp only at hgs2
  subst hgs2
  rw [← hs0eq] at hhv
  simp only [horizontalHaving, HORIZONTAL_DST_IP_THRESHOLD, HORIZONTAL_CONN_THRESHOLD,
    Bool.or_eq_true, decide_eq_true_eq] at hhv
  simp only [HORIZONTAL_DST_IP_THRESHOLD] at hd
  simp only [HORIZONTAL_CONN_THRESHOLD] at hc
  omega

theorem horizontal_flag_exists {evs : List IpEvent} {since_iso : String} {s : String}
    (hd : dstCountIn (windowEvents evs since_iso) s = HORIZONTAL_DST_IP_THRESHOLD + 1) :
    ∃ g ∈ (horizontalGroups (windowEvents evs since_iso)).filter horizontalHaving,
      g.src_ip = s := by
  have hrows : rowsForSrc (windowEvents evs since_iso) s ≠ [] := by
    intro h0
    simp [dstCountIn, h0, distinctKeys, distinctAux, HORIZONTAL_DST_IP_THRESHOLD] at hd
  obtain ⟨e, he⟩ := List.exists_mem_of_ne_nil _ hrows
  have hesrc : e.src_ip = s := by
    have := (List.mem_filter.mp he).2
    simpa using this
  have hkey : s ∈ distinctKeys ((windowEvents evs since_iso).map (·.src_ip)) :=
    mem_distinctKeys.mpr (List.mem_map.mpr ⟨e, List.mem_of_mem_filter he, hesrc⟩)
  refine ⟨HGroup.mk s (dstCountIn (windowEvents evs since_iso) s)
      (connCountIn (windowEvents evs since_iso) s), ?_, rfl⟩
  refine List.mem_filter.mpr ⟨List.mem_map.mpr ⟨s, hkey, rfl⟩, ?_⟩
  simp [horizontalHaving, hd, HORIZONTAL_DST_IP_THRESHOLD]

theorem vertical_not_in_output {evs : List IpEvent} {since_iso : String} {limit : Nat}
    {k : String × String}
    (hp : portsCountIn (windowEvents evs since_iso) k ≤ VERTICAL_PORTS_THRESHOLD) :
    (some k.1, some k.2) ∉
      (detect_vertical_scans evs since_iso limit).map fun c => (c.src_ip, c.dst_ip) := by
  intro hmem
  simp only [detect_vertical_scans, List.map_map, List.mem_map, Function.comp_apply] at hmem
  obtain ⟨g, hg, hgs⟩ := hmem
  have hg2 : g ∈ (verticalGroups (windowEvents evs since_iso)).filter verticalHaving :=
    ((List.perm_insertionSort verticalOrder _).mem_iff).mp (List.mem_of_mem_take hg)
  have hg3 := List.mem_filter.mp hg2
  obtain ⟨k0, _, hk0eq⟩ := List.mem_map.mp hg3.1
  have hhv := hg3.2
  rw [← hk0eq] at hgs
  simp only [Prod.mk.injEq, Option.some.injEq] at hgs
  have hk0 : k0 = k := Prod.ext hgs.1 hgs.2
  rw [← hk0eq, hk0] at hhv
  simp only [verticalHaving, VERTICAL_PORTS_THRESHOLD, decide_eq_true_eq] at hhv
  simp only [VERTICAL_PORTS_THRESHOLD] at hp
  omega

theorem vertical_flag_exists {evs : List IpEvent} {since_iso : String} {k : String × String}
    (hp : portsCountIn (windowEvents evs since_iso) k = VERTICAL_PORTS_THRESHOLD + 1) :
    ∃ g ∈ (verticalGroups (windowEvents evs since_iso)).filter verticalHaving,
      g.src_ip = k.1 ∧ g.dst_ip = k.2 := by
  have hrows : rowsForPair (windowEvents evs since_iso) k ≠ [] := by
    intro h0
    simp [portsCountIn, h0, distinctKeys, distinctAux, VERTICAL_PORTS_THRESHOLD] at hp
  obtain ⟨e, he⟩ := List.exists_mem_of_ne_nil _ hrows
  have hek : (e.src_ip, e.dst_ip) = k := by
    have := (List.mem_filter.mp he).2
    simpa using this
  have hkey : k ∈ distinctKeys ((windowEvents evs since_iso).map fun e => (e.src_ip, e.dst_ip)) :=
    mem_distinctKeys.mpr (List.mem_map.mpr ⟨e, List.mem_of_mem_filter he, hek⟩)
  refine ⟨VGroup.mk k.1 k.2 (portsCountIn (windowEvents evs since_iso) k), ?_, rfl, rfl⟩
  refine List.mem_filter.mpr ⟨List.mem_map.mpr ⟨k, hkey, rfl⟩, ?_⟩
  simp [verticalHaving, hp, VERTICAL_PORTS_THRESHOLD]

theorem repeated_not_in_output {evs : List IpEvent} {since_iso : String} {limit : Nat}
    {s : String}
    (hc : connCountIn (windowEvents evs since_iso) s ≤ REPEATED_CONN_THRESHOLD) :
    some s ∉ (detect_repeated_connections evs since_iso limit).map (·.src_ip) := by
  intro hmem
  simp only [detect_repeated_connections, List.map_map, List.mem_map,
    Function.comp_apply] at hmem
  obtain ⟨g, hg, hgs⟩ := hmem
  have hgs2 : g.src_ip = s := by simpa using hgs
  have hg2 : g ∈ (repeatedGroups (windowEvents evs since_iso)).filter repeatedHaving :=
    ((List.perm_insertionSort repeatedOrder _).mem_iff).mp (List.mem_of_mem_take hg)
  have hg3 := List.mem_filter.mp hg2
  obtain ⟨s0, _, hs0eq⟩ := List.mem_map.mp hg3.1
  have hhv := hg3.2
  rw [← hs0eq] at hgs2
  simp only at hgs2
  subst hgs2
  rw [← hs0eq] at hhv
  simp only [repeatedHaving, REPEATED_CONN_THRESHOLD, decide_eq_true_eq] at hhv
  simp only [REPEATED_CONN_THRESHOLD] at hc
  omega

theorem repeated_flag_exists {evs : List IpEvent} {since_iso : String} {s : String}
    (hc : connCountIn (windowEvents evs since_iso) s = REPEATED_CONN_THRESHOLD + 1) :
    ∃ g ∈ (repeatedGroups (windowEvents evs since_iso)).filter repeatedHaving,
      g.src_ip = s := by
  have hrows : rowsForSrc (windowEvents evs since_iso) s ≠ [] := by
    intro h0
    simp [connCountIn, h0, REPEATED_CONN_THRESHOLD] at hc
  obtain ⟨e, he⟩ := List.exists_mem_of_ne_nil _ hrows
  have hesrc : e.src_ip = s := by
    have := (List.mem_filter.mp he).2
    simpa using this
  have hkey : s ∈ distinctKeys ((windowEvents evs since_iso).map (·.src_ip)) :=
    mem_distinctKeys.mpr (List.mem_map.mpr ⟨e, List.mem_of_mem_filter he, hesrc⟩)
  refine ⟨RGroup.mk s (connCountIn (windowEvents evs since_iso) s), ?_, rfl⟩
  refine List.mem_filter.mpr ⟨List.mem_map.mpr ⟨s, hkey, rfl⟩, ?_⟩
  simp [repeatedHaving, hc, REPEATED_CONN_THRESHOLD]

end NetScout

namespace NetScout

/-! Lemmas about the enrichment cache and the per-subject orchestration. -/

theorem key_ne_of_kind {k1 k2 : String} (subject : String) (h : k1 ≠ k2) :
    ((k1, subject) : String × String) ≠ (k2, subject) :=
  fun hh => h (congrArg Prod.fst hh)

/-- Updating rows of one subject key leaves lookups of any other key
unchanged. -/
theorem cache_get_map_upd_ne {subject s2 : String × String} {kind : String} {v : JVal}
    {now : String} (h : s2 ≠ subject) :
    ∀ (c : List CacheRow),
      cache_get (c.map fun r =>
        if r.subject == subject then
          { r with kind := kind, result_json := v, updated_at := now }
        else r) s2 = cache_get c s2 := by
  intro c
  induction c with
  | nil => rfl
  | cons r rs ih =>
    by_cases hr : r.subject = subject
    · have hbeq : (r.subject == subject) = true := beq_iff_eq.mpr hr
      have hne2 : (r.subject == s2) = false := by
        refine beq_eq_false_iff_ne.mpr ?_
        rw [hr]
        exact fun heq => h heq.symm
      simp only [List.map_cons, hbeq, if_true, cache_get, List.find?]
      simp only [hne2]
      exact ih
    · have hbeq : (r.subject == subject) = false := beq_eq_false_iff_ne.mpr hr
      simp only [List.map_cons, hbeq, Bool.false_eq_true, if_false, cache_get, List.find?]
      by_cases hrs : r.subject = s2
      · simp [beq_iff_eq.mpr hrs]
      · simp only [beq_eq_false_iff_ne.mpr hrs]
        exact ih

/-- Appending a row of a different subject key leaves lookups unchanged. -/
theorem cache_get_append_ne {s2 : String × String} {row : CacheRow}
    (h : row.subject ≠ s2) :
    ∀ (c : List CacheRow), cache_get (c ++ [row]) s2 = cache_get c s2 := by
  intro c
  induction c with
  | nil =>
    simp only [List.nil_append, cache_get, List.find?, beq_eq_false_iff_ne.mpr h]
  | cons r rs ih =>
    simp only [List.cons_append, cache_get, List.find?]
    by_cases hrs : r.subject = s2
    · simp [beq_iff_eq.mpr hrs]
    · simp only [beq_eq_false_iff_ne.mpr hrs]
      exact ih

/-- In-place update hits the row of the written key. -/
theorem cache_get_map_upd_self {subject : String × String} {kind : String} {v : JVal}
    {now : String} :
    ∀ (c : List CacheRow), (∃ r ∈ c, r.subject = subject) →
      cache_get (c.map fun r =>
        if r.subject == subject then
          { r with kind := kind, result_json := v, updated_at := now }
        else r) subject = some (v, now) := by
  intro c
  induction c with
  | nil => rintro ⟨r, hr, _⟩; cases hr
  | cons r rs ih =>
    rintro ⟨r0, hr0mem, hr0⟩
    by_cases hr : r.subject = subject
    · have hbeq : (r.subject == subject) = true := beq_iff_eq.mpr hr
      simp only [List.map_cons, hbeq, if_true, cache_get, List.find?]
    · have hbeq : (r.subject == subject) = false := beq_eq_false_iff_ne.mpr hr
      simp only [List.map_cons, hbeq, Bool.false_eq_true, if_false, cache_get, List.find?]
      rcases List.mem_cons.mp hr0mem with rfl | hmem
      · exact absurd hr0 hr
      · exact ih ⟨r0, hmem, hr0⟩

/-- Appending a fresh row makes its key found with the written value. -/
theorem cache_get_append_self {subject : String × String} {kind : String} {v : JVal}
    {now : String} :
    ∀ (c : List CacheRow), (∀ r ∈ c, (r.subject == subject) = false) →
      cache_get (c ++ [CacheRow.mk subject kind v now]) subject = some (v, now) := by
  intro c
  induction c with
  | nil =>
    intro _
    simp [cache_get, List.find?]
  | cons r rs ih =>
    intro hall
    simp only [List.cons_append, cache_get, List.find?, hall r (List.mem_cons_self _ _)]
    exact ih fun r2 hr2 => hall r2 (List.mem_cons_of_mem _ hr2)

/-- cache_set does not disturb other subject keys. -/
theorem cache_get_set_ne {c : List CacheRow} {subject s2 : String × String}
    {kind : String} {v : JVal} {now : String} (h : s2 ≠ subject) :
    cache_get (cache_set c subject kind v now) s2 = cache_get c s2 := by
  rw [cache_set]
  by_cases hany : c.any fun r => r.subject == subject
  · rw [if_pos hany]
    exact cache_get_map_upd_ne h c
  · rw [if_neg hany]
    exact cache_get_append_ne (Ne.symm h) c

/-- After cache_set, the written key holds the written value and timestamp. -/
theorem cache_get_set_self {c : List CacheRow} {subject : String × String}
    {kind : String} {v : JVal} {now : String} :
    cache_get (cache_set c subject kind v now) subject = some (v, now) := by
  rw [cache_set]
  by_cases hany : c.any fun r => r.subject == subject
  · rw [if_pos hany]
    obtain ⟨r0, hr0mem, hr0⟩ := List.any_eq_true.mp hany
    exact cache_get_map_upd_self c ⟨r0, hr0mem, beq_iff_eq.mp hr0⟩
  · rw [if_neg hany]
    refine cache_get_append_self c fun r hr => ?_
    by_contra hcon
    exact hany (List.any_eq_true.mpr ⟨r, hr, by simpa using hcon⟩)

/-- cache_set keeps the subject keys pairwise distinct: an existing key is
overwritten in place, a new key is appended once. -/
theorem cache_set_nodup {c : List CacheRow} {subject : String × String}
    {kind : String} {v : JVal} {now : String} (h : cacheKeysNodup c) :
    cacheKeysNodup (cache_set c subject kind v now) := by
  rw [cache_set]
  by_cases hany : c.any fun r => r.subject == subject
  · rw [if_pos hany]
    unfold cacheKeysNodup at h ⊢
    have hmap : ((c.map fun r =>
        if r.subject == subject then
          { r with kind := kind, result_json := v, updated_at := now }
        else r).map (·.subject)) = c.map (·.subject) := by
      rw [List.map_map]
      refine List.map_congr_left fun r _ => ?_
      by_cases hr : (r.subject == subject) = true
      · simp only [Function.comp_apply, hr, if_true]
      · simp only [Function.comp_apply, hr, Bool.false_eq_true, if_false]
    rw [hmap]
    exact h
  · rw [if_neg hany]
    unfold cacheKeysNodup at h ⊢
    rw [List.map_append, List.nodup_append]
    refine ⟨h, by simp, ?_⟩
    intro a ha hb
    simp only [List.map_cons, List.map_nil, List.mem_singleton] at hb
    subst hb
    obtain ⟨r, hr, hrs⟩ := List.mem_map.mp ha
    exact hany (List.any_eq_true.mpr ⟨r, hr, by simp [hrs]⟩)

end NetScout

namespace NetScout

/-! Lemmas about one provider block and their composition. -/

theorem callCount_append (k : String) (t1 t2 : List EnEffect) :
    callCount k (t1 ++ t2) = callCount k t1 + callCount k t2 := by
  simp [callCount, List.filter_append]

theorem sleepCount_append (k : String) (t1 t2 : List EnEffect) :
    sleepCount k (t1 ++ t2) = sleepCount k t1 + sleepCount k t2 := by
  simp [sleepCount, List.filter_append]

theorem callCount_runBlock (guard : Bool) (kind subject : String) (prov : Unit → JVal)
    (now : String) (st : EnSt) (k : String) :
    callCount k (runBlock guard kind subject prov now st).trace =
      callCount k st.trace +
        (if (k == kind) && guard && (cache_get st.cache (kind, subject)).isNone
          then 1 else 0) := by
  cases guard with
  | false => simp [runBlock]
  | true =>
    rw [runBlock]
    cases hget : cache_get st.cache (kind, subject) with
    | some p => simp [hget]
    | none =>
      simp only [hget, Option.isNone_none, Bool.and_true, if_true]
      rw [callCount_append]
      by_cases hk : k = kind
      · subst hk
        simp [callCount]
      · have h1 : (EnEffect.call kind == EnEffect.call k) = false := by
          refine beq_eq_false_iff_ne.mpr ?_
          intro h
          exact hk (EnEffect.call.inj h).symm
        have h2 : (EnEffect.sleep kind == EnEffect.call k) = false := by
          refine beq_eq_false_iff_ne.mpr ?_
          intro h
          cases h
        have hkk : (k == kind) = false := beq_eq_false_iff_ne.mpr hk
        simp [callCount, List.filter, h1, h2, hkk]

theorem sleepCount_runBlock (guard : Bool) (kind subject : String) (prov : Unit → JVal)
    (now : String) (st : EnSt) (k : String) :
    sleepCount k (runBlock guard kind subject prov now st).trace =
      sleepCount k st.trace +
        (if (k == kind) && guard && (cache_get st.cache (kind, subject)).isNone
          then 1 else 0) := by
  cases guard with
  | false => simp [runBlock]
  | true =>
    rw [runBlock]
    cases hget : cache_get st.cache (kind, subject) with
    | some p => simp [hget]
    | none =>
      simp only [hget, Option.isNone_none, Bool.and_true, if_true]
      rw [sleepCount_append]
      by_cases hk : k = kind
      · subst hk
        simp [sleepCount]
      · have h1 : (EnEffect.sleep kind == EnEffect.sleep k) = false := by
          refine beq_eq_false_iff_ne.mpr ?_
          intro h
          exact hk (EnEffect.sleep.inj h).symm
        have h2 : (EnEffect.call kind == EnEffect.sleep k) = false := by
          refine beq_eq_false_iff_ne.mpr ?_
          intro h
          cases h
        have hkk : (k == kind) = false := beq_eq_false_iff_ne.mpr hk
        simp [sleepCount, List.filter, h1, h2, hkk]

/-- A block leaves every other subject key of the cache unchanged. -/
theorem cache_get_runBlock_ne (guard : Bool) (kind subject : String) (prov : Unit → JVal)
    (now : String) (st : EnSt) {key2 : String × String} (h : key2 ≠ (kind, subject)) :
    cache_get (runBlock guard kind subject prov now st).cache key2 =
      cache_get st.cache key2 := by
  cases guard with
  | false => rfl
  | true =>
    rw [runBlock]
    cases hget : cache_get st.cache (kind, subject) with
    | some p => rfl
    | none =>
      simp only []
      exact cache_get_set_ne h

/-- A block preserves distinctness of the cache keys. -/
theorem runBlock_nodup (guard : Bool) (kind subject : String) (prov : Unit → JVal)
    (now : String) (st : EnSt) (h : cacheKeysNodup st.cache) :
    cacheKeysNodup (runBlock guard kind subject prov now st).cache := by
  cases guard with
  | false => exact h
  | true =>
    rw [runBlock]
    cases hget : cache_get st.cache (kind, subject) with
    | some p => exact h
    | none => exact cache_set_nodup h

end NetScout

namespace NetScout

theorem lookup_append_single_ne {k kind : String} {v : JVal}
    (h : (k == kind) = false) :
    ∀ (l : List (String × JVal)), (l ++ [(kind, v)]).lookup k = l.lookup k := by
  intro l
  induction l with
  | nil => simp [List.lookup, h]
  | cons p ps ih =>
    rw [List.cons_append, List.lookup, List.lookup]
    by_cases hp : k == p.1
    · simp [hp]
    · simp only [Bool.not_eq_true] at hp
      simp only [hp]
      exact ih

theorem lookup_append_single_self {k : String} {v : JVal} :
    ∀ (l : List (String × JVal)), l.lookup k = none →
      (l ++ [(k, v)]).lookup k = some v := by
  intro l
  induction l with
  | nil => intro _; simp [List.lookup]
  | cons p ps ih =>
    intro hnone
    rw [List.cons_append, List.lookup]
    rw [List.lookup] at hnone
    by_cases hp : k == p.1
    · rw [hp] at hnone
      cases hnone
    · simp only [Bool.not_eq_true] at hp
      rw [hp] at hnone ⊢
      exact ih hnone

theorem result_runBlock_ne {guard : Bool} {kind subject : String} {prov : Unit → JVal}
    {now : String} {st : EnSt} {k : String} (h : (k == kind) = false) :
    ((runBlock guard kind subject prov now st).result).lookup k = st.result.lookup k := by
  cases guard with
  | false => rfl
  | true =>
    rw [runBlock]
    cases hget : cache_get st.cache (kind, subject) with
    | some p => exact lookup_append_single_ne h _
    | none => exact lookup_append_single_ne h _

theorem result_runBlock_hit {kind subject : String} {prov : Unit → JVal}
    {now : String} {st : EnSt} {v : JVal} {t : String}
    (hget : cache_get st.cache (kind, subject) = some (v, t))
    (hl : st.result.lookup kind = none) :
    ((runBlock true kind subject prov now st).result).lookup kind = some v := by
  rw [runBlock]
  simp only [hget, if_true]
  exact lookup_append_single_self _ hl

theorem result_runBlock_miss {kind subject : String} {prov : Unit → JVal}
    {now : String} {st : EnSt}
    (hget : cache_get st.cache (kind, subject) = none)
    (hl : st.result.lookup kind = none) :
    ((runBlock true kind subject prov now st).result).lookup kind = some (prov ()) := by
  rw [runBlock]
  simp only [hget, if_true]
  exact lookup_append_single_self _ hl

theorem cache_get_runBlock_miss {kind subject : String} {prov : Unit → JVal}
    {now : String} {st : EnSt}
    (hget : cache_get st.cache (kind, subject) = none) :
    cache_get (runBlock true kind subject prov now st).cache (kind, subject) =
      some (prov (), now) := by
  rw [runBlock]
  simp only [hget, if_true]
  exact cache_get_set_self

theorem cache_runBlock_hit {kind subject : String} {prov : Unit → JVal}
    {now : String} {st : EnSt} {v : JVal} {t : String}
    (hget : cache_get st.cache (kind, subject) = some (v, t)) :
    (runBlock true kind subject prov now st).cache = st.cache := by
  rw [runBlock]
  simp only [hget, if_true]

end NetScout

namespace NetScout

/-- The four kind strings label distinct cache keys for one subject. -/
theorem key_whois_rdns (subject : String) :
    (("whois", subject) : String × String) ≠ ("rdns", subject) :=
  @key_ne_of_kind "whois" "rdns" subject (by decide)

theorem key_tr_rdns (subject : String) :
    (("traceroute", subject) : String × String) ≠ ("rdns", subject) :=
  @key_ne_of_kind "traceroute" "rdns" subject (by decide)

theorem key_tr_whois (subject : String) :
    (("traceroute", subject) : String × String) ≠ ("whois", subject) :=
  @key_ne_of_kind "traceroute" "whois" subject (by decide)

theorem key_pdns_rdns (subject : String) :
    (("pdns", subject) : String × String) ≠ ("rdns", subject) :=
  @key_ne_of_kind "pdns" "rdns" subject (by decide)

theorem key_pdns_whois (subject : String) :
    (("pdns", subject) : String × String) ≠ ("whois", subject) :=
  @key_ne_of_kind "pdns" "whois" subject (by decide)

theorem key_pdns_tr (subject : String) :
    (("pdns", subject) : String × String) ≠ ("traceroute", subject) :=
  @key_ne_of_kind "pdns" "traceroute" subject (by decide)

/-- Number of provider invocations of a kind in one enrich_subject run: one
exactly when the kind is processed and its key misses in the entry cache,
zero otherwise. -/
theorem enrich_callCount (p : Providers) (cfg : EnrichConfig) (cache : List CacheRow)
    (subject : String) (kinds : List String) (now : String) (k : String) :
    callCount k (enrich_subject p cfg cache subject kinds now).trace =
      if requestedAndEnabled cfg kinds k && (cache_get cache (k, subject)).isNone
      then 1 else 0 := by
  simp only [enrich_subject]
  rw [callCount_runBlock, callCount_runBlock, callCount_runBlock, callCount_runBlock]
  rw [cache_get_runBlock_ne _ _ _ _ _ _ (key_whois_rdns subject)]
  rw [cache_get_runBlock_ne _ _ _ _ _ _ (key_tr_whois subject),
    cache_get_runBlock_ne _ _ _ _ _ _ (key_tr_rdns subject)]
  rw [cache_get_runBlock_ne _ _ _ _ _ _ (key_pdns_tr subject),
    cache_get_runBlock_ne _ _ _ _ _ _ (key_pdns_whois subject),
    cache_get_runBlock_ne _ _ _ _ _ _ (key_pdns_rdns subject)]
  have hcc : callCount k (EnSt.mk [] cache []).trace = 0 := rfl
  rw [hcc]
  by_cases h1 : k = "rdns"
  · subst h1
    have e1 : (("rdns" : String) == "whois") = false := by decide
    have e2 : (("rdns" : String) == "traceroute") = false := by decide
    have e3 : (("rdns" : String) == "pdns") = false := by decide
    simp only [requestedAndEnabled, e1, e2, e3, beq_self_eq_true, if_true,
      Bool.false_eq_true, if_false, Bool.true_and, Bool.and_assoc]
    simp
  by_cases h2 : k = "whois"
  · subst h2
    have e1 : (("whois" : String) == "rdns") = false := by decide
    have e2 : (("whois" : String) == "traceroute") = false := by decide
    have e3 : (("whois" : String) == "pdns") = false := by decide
    simp only [requestedAndEnabled, e1, e2, e3, beq_self_eq_true, if_true,
      Bool.false_eq_true, if_false, Bool.true_and, Bool.and_assoc]
    simp
  by_cases h3 : k = "traceroute"
  · subst h3
    have e1 : (("traceroute" : String) == "rdns") = false := by decide
    have e2 : (("traceroute" : String) == "whois") = false := by decide
    have e3 : (("traceroute" : String) == "pdns") = false := by decide
    simp only [requestedAndEnabled, e1, e2, e3, beq_self_eq_true, if_true,
      Bool.false_eq_true, if_false, Bool.true_and, Bool.and_assoc]
    simp
  by_cases h4 : k = "pdns"
  · subst h4
    have e1 : (("pdns" : String) == "rdns") = false := by decide
    have e2 : (("pdns" : String) == "whois") = false := by decide
    have e3 : (("pdns" : String) == "traceroute") = false := by decide
    simp only [requestedAndEnabled, e1, e2, e3, beq_self_eq_true, if_true,
      Bool.false_eq_true, if_false, Bool.true_and, Bool.and_assoc]
    simp
  · have e1 : (k == "rdns") = false := beq_eq_false_iff_ne.mpr h1
    have e2 : (k == "whois") = false := beq_eq_false_iff_ne.mpr h2
    have e3 : (k == "traceroute") = false := beq_eq_false_iff_ne.mpr h3
    have e4 : (k == "pdns") = false := beq_eq_false_iff_ne.mpr h4
    simp only [requestedAndEnabled, e1, e2, e3, e4, beq_self_eq_true, if_true,
      Bool.false_eq_true, if_false, Bool.true_and, Bool.and_assoc]
    simp

/-- The politeness delay of a kind is emitted exactly as often as its
provider invocation. -/
theorem enrich_sleepCount (p : Providers) (cfg : EnrichConfig) (cache : List CacheRow)
    (subject : String) (kinds : List String) (now : String) (k : String) :
    sleepCount k (enrich_subject p cfg cache subject kinds now).trace =
      if requestedAndEnabled cfg kinds k && (cache_get cache (k, subject)).isNone
      then 1 else 0 := by
  simp only [enrich_subject]
  rw [sleepCount_runBlock, sleepCount_runBlock, sleepCount_runBlock, sleepCount_runBlock]
  rw [cache_get_runBlock_ne _ _ _ _ _ _ (key_whois_rdns subject)]
  rw [cache_get_runBlock_ne _ _ _ _ _ _ (key_tr_whois subject),
    cache_get_runBlock_ne _ _ _ _ _ _ (key_tr_rdns subject)]
  rw [cache_get_runBlock_ne _ _ _ _ _ _ (key_pdns_tr subject),
    cache_get_runBlock_ne _ _ _ _ _ _ (key_pdns_whois subject),
    cache_get_runBlock_ne _ _ _ _ _ _ (key_pdns_rdns subject)]
  have hcc : sleepCount k (EnSt.mk [] cache []).trace = 0 := rfl
  rw [hcc]
  by_cases h1 : k = "rdns"
  · subst h1
    have e1 : (("rdns" : String) == "whois") = false := by decide
    have e2 : (("rdns" : String) == "traceroute") = false := by decide
    have e3 : (("rdns" : String) == "pdns") = false := by decide
    simp only [requestedAndEnabled, e1, e2, e3, beq_self_eq_true, if_true,
      Bool.false_eq_true, if_false, Bool.true_and, Bool.and_assoc]
    simp
  by_cases h2 : k = "whois"
  · subst h2
    have e1 : (("whois" : String) == "rdns") = false := by decide
    have e2 : (("whois" : String) == "traceroute") = false := by decide
    have e3 : (("whois" : String) == "pdns") = false := by decide
    simp only [requestedAndEnabled, e1, e2, e3, beq_self_eq_true, if_true,
      Bool.false_eq_true, if_false, Bool.true_and, Bool.and_assoc]
    simp
  by_cases h3 : k = "traceroute"
  · subst h3
    have e1 : (("traceroute" : String) == "rdns") = false := by decide
    have e2 : (("traceroute" : String) == "whois") = false := by decide
    have e3 : (("traceroute" : String) == "pdns") = false := by decide
    simp only [requestedAndEnabled, e1, e2, e3, beq_self_eq_true, if_true,
      Bool.false_eq_true, if_false, Bool.true_and, Bool.and_assoc]
    simp
  by_cases h4 : k = "pdns"
  · subst h4
    have e1 : (("pdns" : String) == "rdns") = false := by decide
    have e2 : (("pdns" : String) == "whois") = false := by decide
    have e3 : (("pdns" : String) == "traceroute") = false := by decide
    simp only [requestedAndEnabled, e1, e2, e3, beq_self_eq_true, if_true,
      Bool.false_eq_true, if_false, Bool.true_and, Bool.and_assoc]
    simp
  · have e1 : (k == "rdns") = false := beq_eq_false_iff_ne.mpr h1
    have e2 : (k == "whois") = false := beq_eq_false_iff_ne.mpr h2
    have e3 : (k == "traceroute") = false := beq_eq_false_iff_ne.mpr h3
    have e4 : (k == "pdns") = false := beq_eq_false_iff_ne.mpr h4
    simp only [requestedAndEnabled, e1, e2, e3, e4, beq_self_eq_true, if_true,
      Bool.false_eq_true, if_false, Bool.true_and, Bool.and_assoc]
    simp

end NetScout

namespace NetScout

theorem requested_rdns (cfg : EnrichConfig) (kinds : List String) :
    requestedAndEnabled cfg kinds "rdns" = (kinds.contains "rdns" && cfg.enableRdns) := by
  simp [requestedAndEnabled]

theorem requested_whois (cfg : EnrichConfig) (kinds : List String) :
    requestedAndEnabled cfg kinds "whois" = (kinds.contains "whois" && cfg.enableWhois) := by
  have e1 : (("whois" : String) == "rdns") = false := by decide
  simp [requestedAndEnabled, e1]

theorem requested_tr (cfg : EnrichConfig) (kinds : List String) :
    requestedAndEnabled cfg kinds "traceroute"
      = (kinds.contains "traceroute" && cfg.enableTraceroute) := by
  have e1 : (("traceroute" : String) == "rdns") = false := by decide
  have e2 : (("traceroute" : String) == "whois") = false := by decide
  simp [requestedAndEnabled, e1, e2]

theorem requested_pdns (cfg : EnrichConfig) (kinds : List String) :
    requestedAndEnabled cfg kinds "pdns" = kinds.contains "pdns" := by
  have e1 : (("pdns" : String) == "rdns") = false := by decide
  have e2 : (("pdns" : String) == "whois") = false := by decide
  have e3 : (("pdns" : String) == "traceroute") = false := by decide
  simp [requestedAndEnabled, e1, e2, e3]

theorem requestedAndEnabled_cases {cfg : EnrichConfig} {kinds : List String} {k : String}
    (h : requestedAndEnabled cfg kinds k = true) :
    k = "rdns" ∨ k = "whois" ∨ k = "traceroute" ∨ k = "pdns" := by
  by_cases h1 : k = "rdns"
  · exact Or.inl h1
  by_cases h2 : k = "whois"
  · exact Or.inr (Or.inl h2)
  by_cases h3 : k = "traceroute"
  · exact Or.inr (Or.inr (Or.inl h3))
  by_cases h4 : k = "pdns"
  · exact Or.inr (Or.inr (Or.inr h4))
  exfalso
  rw [requestedAndEnabled] at h
  rw [if_neg (by simpa using h1), if_neg (by simpa using h2), if_neg (by simpa using h3),
    if_neg (by simpa using h4)] at h
  cases h

/-- enrich_subject keeps the cache keys pairwise distinct. -/
theorem enrich_nodup (p : Providers) (cfg : EnrichConfig) (cache : List CacheRow)
    (subject : String) (kinds : List String) (now : String) (h : cacheKeysNodup cache) :
    cacheKeysNodup (enrich_subject p cfg cache subject kinds now).cache := by
  simp only [enrich_subject]
  exact runBlock_nodup _ _ _ _ _ _ (runBlock_nodup _ _ _ _ _ _ (runBlock_nodup _ _ _ _ _ _
    (runBlock_nodup _ _ _ _ _ _ h)))

/-- Cache and result facts after a processed miss of the rdns kind. -/
theorem enrich_rdns_miss (p : Providers) (cfg : EnrichConfig) (cache : List CacheRow)
    (subject : String) (kinds : List String) (now : String)
    (hreq : requestedAndEnabled cfg kinds "rdns" = true)
    (hmiss : cache_get cache ("rdns", subject) = none) :
    cache_get (enrich_subject p cfg cache subject kinds now).cache ("rdns", subject)
      = some (optStrVal (p.rdnsFn subject), now) ∧
    (enrich_subject p cfg cache subject kinds now).result.lookup "rdns"
      = some (optStrVal (p.rdnsFn subject)) := by
  rw [requested_rdns] at hreq
  simp only [enrich_subject, hreq]
  constructor
  · rw [cache_get_runBlock_ne _ _ _ _ _ _ (Ne.symm (key_pdns_rdns subject)),
      cache_get_runBlock_ne _ _ _ _ _ _ (Ne.symm (key_tr_rdns subject)),
      cache_get_runBlock_ne _ _ _ _ _ _ (Ne.symm (key_whois_rdns subject))]
    exact cache_get_runBlock_miss hmiss
  · rw [result_runBlock_ne (by decide), result_runBlock_ne (by decide),
      result_runBlock_ne (by decide)]
    exact result_runBlock_miss hmiss rfl

/-- Cache and result facts after a processed miss of the whois kind. -/
theorem enrich_whois_miss (p : Providers) (cfg : EnrichConfig) (cache : List CacheRow)
    (subject : String) (kinds : List String) (now : String)
    (hreq : requestedAndEnabled cfg kinds "whois" = true)
    (hmiss : cache_get cache ("whois", subject) = none) :
    cache_get (enrich_subject p cfg cache subject kinds now).cache ("whois", subject)
      = some (optStrVal (p.whoisFn subject), now) ∧
    (enrich_subject p cfg cache subject kinds now).result.lookup "whois"
      = some (optStrVal (p.whoisFn subject)) := by
  rw [requested_whois] at hreq
  simp only [enrich_subject, hreq]
  have hmiss1 : cache_get (runBlock (kinds.contains "rdns" && cfg.enableRdns) "rdns" subject
      (fun _ => optStrVal (p.rdnsFn subject)) now (EnSt.mk [] cache [])).cache
      ("whois", subject) = none := by
    rw [cache_get_runBlock_ne _ _ _ _ _ _ (key_whois_rdns subject)]
    exact hmiss
  constructor
  · rw [cache_get_runBlock_ne _ _ _ _ _ _ (Ne.symm (key_pdns_whois subject)),
      cache_get_runBlock_ne _ _ _ _ _ _ (Ne.symm (key_tr_whois subject))]
    exact cache_get_runBlock_miss hmiss1
  · rw [result_runBlock_ne (by decide), result_runBlock_ne (by decide)]
    refine result_runBlock_miss hmiss1 ?_
    rw [result_runBlock_ne (by decide)]
    rfl

/-- Cache and result facts after a processed miss of the traceroute kind. -/
theorem enrich_tr_miss (p : Providers) (cfg : EnrichConfig) (cache : List CacheRow)
    (subject : String) (kinds : List String) (now : String)
    (hreq : requestedAndEnabled cfg kinds "traceroute" = true)
    (hmiss : cache_get cache ("traceroute", subject) = none) :
    cache_get (enrich_subject p cfg cache subject kinds now).cache ("traceroute", subject)
      = some (.jstr (p.trFn subject), now) ∧
    (enrich_subject p cfg cache subject kinds now).result.lookup "traceroute"
      = some (.jstr (p.trFn subject)) := by
  rw [requested_tr] at hreq
  simp only [enrich_subject, hreq]
  have hmiss1 : cache_get (runBlock (kinds.contains "whois" && cfg.enableWhois) "whois" subject
      (fun _ => optStrVal (p.whoisFn subject)) now
      (runBlock (kinds.contains "rdns" && cfg.enableRdns) "rdns" subject
        (fun _ => optStrVal (p.rdnsFn subject)) now (EnSt.mk [] cache []))).cache
      ("traceroute", subject) = none := by
    rw [cache_get_runBlock_ne _ _ _ _ _ _ (key_tr_whois subject),
      cache_get_runBlock_ne _ _ _ _ _ _ (key_tr_rdns subject)]
    exact hmiss
  constructor
  · rw [cache_get_runBlock_ne _ _ _ _ _ _ (Ne.symm (key_pdns_tr subject))]
    exact cache_get_runBlock_miss hmiss1
  · rw [result_runBlock_ne (by decide)]
    refine result_runBlock_miss hmiss1 ?_
    rw [result_runBlock_ne (by decide), result_runBlock_ne (by decide)]
    rfl

/-- Cache and result facts after a processed miss of the pdns kind. -/
theorem enrich_pdns_miss (p : Providers) (cfg : EnrichConfig) (cache : List CacheRow)
    (subject : String) (kinds : List String) (now : String)
    (hreq : requestedAndEnabled cfg kinds "pdns" = true)
    (hmiss : cache_get cache ("pdns", subject) = none) :
    cache_get (enrich_subject p cfg cache subject kinds now).cache ("pdns", subject)
      = some (optJVal (pdns_lookup p subject), now) ∧
    (enrich_subject p cfg cache subject kinds now).result.lookup "pdns"
      = some (optJVal (pdns_lookup p subject)) := by
  rw [requested_pdns] at hreq
  simp only [enrich_subject, hreq]
  have hmiss1 : cache_get (runBlock (kinds.contains "traceroute" && cfg.enableTraceroute)
      "traceroute" subject (fun _ => .jstr (p.trFn subject)) now
      (runBlock (kinds.contains "whois" && cfg.enableWhois) "whois" subject
        (fun _ => optStrVal (p.whoisFn subject)) now
        (runBlock (kinds.contains "rdns" && cfg.enableRdns) "rdns" subject
          (fun _ => optStrVal (p.rdnsFn subject)) now (EnSt.mk [] cache [])))).cache
      ("pdns", subject) = none := by
    rw [cache_get_runBlock_ne _ _ _ _ _ _ (key_pdns_tr subject),
      cache_get_runBlock_ne _ _ _ _ _ _ (key_pdns_whois subject),
      cache_get_runBlock_ne _ _ _ _ _ _ (key_pdns_rdns subject)]
    exact hmiss
  constructor
  · exact cache_get_runBlock_miss hmiss1
  · refine result_runBlock_miss hmiss1 ?_
    rw [result_runBlock_ne (by decide), result_runBlock_ne (by decide),
      result_runBlock_ne (by decide)]
    rfl

end NetScout

namespace NetScout

/-- Result reuse on a cache hit of the rdns kind. -/
theorem enrich_rdns_hit (p : Providers) (cfg : EnrichConfig) (cache : List CacheRow)
    (subject : String) (kinds : List String) (now : String) {v : JVal} {t : String}
    (hreq : requestedAndEnabled cfg kinds "rdns" = true)
    (hhit : cache_get cache ("rdns", subject) = some (v, t)) :
    (enrich_subject p cfg cache subject kinds now).result.lookup "rdns" = some v := by
  rw [requested_rdns] at hreq
  simp only [enrich_subject, hreq]
  rw [result_runBlock_ne (by decide), result_runBlock_ne (by decide),
    result_runBlock_ne (by decide)]
  exact result_runBlock_hit hhit rfl

/-- Result reuse on a cache hit of the whois kind. -/
theorem enrich_whois_hit (p : Providers) (cfg : EnrichConfig) (cache : List CacheRow)
    (subject : String) (kinds : List String) (now : String) {v : JVal} {t : String}
    (hreq : requestedAndEnabled cfg kinds "whois" = true)
    (hhit : cache_get cache ("whois", subject) = some (v, t)) :
    (enrich_subject p cfg cache subject kinds now).result.lookup "whois" = some v := by
  rw [requested_whois] at hreq
  simp only [enrich_subject, hreq]
  rw [result_runBlock_ne (by decide), result_runBlock_ne (by decide)]
  have hhit1 : cache_get (runBlock (kinds.contains "rdns" && cfg.enableRdns) "rdns" subject
      (fun _ => optStrVal (p.rdnsFn subject)) now (EnSt.mk [] cache [])).cache
      ("whois", subject) = some (v, t) := by
    rw [cache_get_runBlock_ne _ _ _ _ _ _ (key_whois_rdns subject)]
    exact hhit
  refine result_runBlock_hit hhit1 ?_
  rw [result_runBlock_ne (by decide)]
  rfl

/-- Result reuse on a cache hit of the traceroute kind. -/
theorem enrich_tr_hit (p : Providers) (cfg : EnrichConfig) (cache : List CacheRow)
    (subject : String) (kinds : List String) (now : String) {v : JVal} {t : String}
    (hreq : requestedAndEnabled cfg kinds "traceroute" = true)
    (hhit : cache_get cache ("traceroute", subject) = some (v, t)) :
    (enrich_subject p cfg cache subject kinds now).result.lookup "traceroute" = some v := by
  rw [requested_tr] at hreq
  simp only [enrich_subject, hreq]
  rw [result_runBlock_ne (by decide)]
  have hhit1 : cache_get (runBlock (kinds.contains "whois" && cfg.enableWhois) "whois" subject
      (fun _ => optStrVal (p.whoisFn subject)) now
      (runBlock (kinds.contains "rdns" && cfg.enableRdns) "rdns" subject
        (fun _ => optStrVal (p.rdnsFn subject)) now (EnSt.mk [] cache []))).cache
      ("traceroute", subject) = some (v, t) := by
    rw [cache_get_runBlock_ne _ _ _ _ _ _ (key_tr_whois subject),
      cache_get_runBlock_ne _ _ _ _ _ _ (key_tr_rdns subject)]
    exact hhit
  refine result_runBlock_hit hhit1 ?_
  rw [result_runBlock_ne (by decide), result_runBlock_ne (by decide)]
  rfl

/-- Result reuse on a cache hit of the pdns kind. -/
theorem enrich_pdns_hit (p : Providers) (cfg : EnrichConfig) (cache : List CacheRow)
    (subject : String) (kinds : List String) (now : String) {v : JVal} {t : String}
    (hreq : requestedAndEnabled cfg kinds "pdns" = true)
    (hhit : cache_get cache ("pdns", subject) = some (v, t)) :
    (enrich_subject p cfg cache subject kinds now).result.lookup "pdns" = some v := by
  rw [requested_pdns] at hreq
  simp only [enrich_subject, hreq]
  have hhit1 : cache_get (runBlock (kinds.contains "traceroute" && cfg.enableTraceroute)
      "traceroute" subject (fun _ => .jstr (p.trFn subject)) now
      (runBlock (kinds.contains "whois" && cfg.enableWhois) "whois" subject
        (fun _ => optStrVal (p.whoisFn subject)) now
        (runBlock (kinds.contains "rdns" && cfg.enableRdns) "rdns" subject
          (fun _ => optStrVal (p.rdnsFn subject)) now (EnSt.mk [] cache [])))).cache
      ("pdns", subject) = some (v, t) := by
    rw [cache_get_runBlock_ne _ _ _ _ _ _ (key_pdns_tr subject),
      cache_get_runBlock_ne _ _ _ _ _ _ (key_pdns_whois subject),
      cache_get_runBlock_ne _ _ _ _ _ _ (key_pdns_rdns subject)]
    exact hhit
  refine result_runBlock_hit hhit1 ?_
  rw [result_runBlock_ne (by decide), result_runBlock_ne (by decide),
    result_runBlock_ne (by decide)]
  rfl

end NetScout

namespace NetScout

/-! Lemmas about the geo correlator and the parser. -/

theorem attachGeo_nil (h : Hop) : attachGeo [] h = h := by
  cases hip : h.ip with
  | none => simp [attachGeo, hip]
  | some ip =>
    by_cases he : ip.isEmpty
    · simp [attachGeo, hip, he]
    · simp [attachGeo, hip, he, List.lookup]

/-- Building the geo map over a non-empty row list raises AttributeError: the
first row has at least one truthy candidate, and the entry construction calls
the get method that sqlite3.Row does not define. -/
theorem buildGeoMap_error {r : IpEvent} {rs : List IpEvent}
    (h : ¬r.src_ip.isEmpty ∨ ¬r.dst_ip.isEmpty) :
    buildGeoMap (r :: rs) [] = .error .attributeError := by
  rcases h with hsrc | hdst
  · have h1 : addCandidate [] r.src_ip r = .error .attributeError := by
      rw [addCandidate, if_pos (by simp [hsrc, List.lookup])]
      rfl
    rw [buildGeoMap, h1]
  · by_cases hsrc : r.src_ip.isEmpty
    · have h1 : addCandidate [] r.src_ip r = .ok [] := by
        rw [addCandidate, if_neg (by simp [hsrc])]
        rfl
      have h2 : addCandidate [] r.dst_ip r = .error .attributeError := by
        rw [addCandidate, if_pos (by simp [hdst, List.lookup])]
        rfl
      rw [buildGeoMap, h1]
      show (match addCandidate [] r.dst_ip r with
        | Except.error e => Except.error e
        | Except.ok m2 => buildGeoMap rs m2) = Except.error PyErr.attributeError
      rw [h2]
    · have h1 : addCandidate [] r.src_ip r = .error .attributeError := by
        rw [addCandidate, if_pos (by simp [hsrc, List.lookup])]
        rfl
      rw [buildGeoMap, h1]

/-- geo_enrich_hops is the identity on the hop list: either there is nothing
to look up, or the query returns no rows and the empty map attaches nothing,
or the map construction raises and the bare except swallows the exception. -/
theorem geo_enrich_hops_eq_self (events : List IpEvent) (hops : List Hop) :
    geo_enrich_hops events hops = hops := by
  simp only [geo_enrich_hops]
  by_cases hips : (distinctKeys ((hops.filterMap (·.ip)).filter fun s => !s.isEmpty)).isEmpty
  · rw [if_pos hips]
  · rw [if_neg hips]
    cases hr : List.insertionSort geoRowOrder (events.filter
        (geoRowPred (distinctKeys ((hops.filterMap (·.ip)).filter fun s => !s.isEmpty)))) with
    | nil =>
      show List.map (attachGeo []) hops = hops
      rw [List.map_congr_left fun h _ => attachGeo_nil h]
      simp
    | cons r rs =>
      have hrmem : r ∈ events.filter (geoRowPred (distinctKeys
          ((hops.filterMap (·.ip)).filter fun s => !s.isEmpty))) := by
        have hmem : r ∈ List.insertionSort geoRowOrder (events.filter (geoRowPred (distinctKeys
            ((hops.filterMap (·.ip)).filter fun s => !s.isEmpty)))) := by
          rw [hr]
          exact List.mem_cons_self _ _
        exact ((List.perm_insertionSort geoRowOrder _).mem_iff).mp hmem
      have hpred := (List.mem_filter.mp hrmem).2
      rw [geoRowPred] at hpred
      have hor : r.src_ip ∈ distinctKeys ((hops.filterMap (·.ip)).filter fun s => !s.isEmpty)
          ∨ r.dst_ip ∈ distinctKeys ((hops.filterMap (·.ip)).filter fun s => !s.isEmpty) := by
        rcases Bool.and_eq_true_iff.mp hpred with ⟨h1, _⟩
        rcases Bool.and_eq_true_iff.mp h1 with ⟨h2, _⟩
        rcases Bool.or_eq_true_iff.mp h2 with h3 | h3
        · exact Or.inl (of_decide_eq_true h3)
        · exact Or.inr (of_decide_eq_true h3)
      have hne : ¬r.src_ip.isEmpty ∨ ¬r.dst_ip.isEmpty := by
        rcases hor with h3 | h3
        · left
          have h4 := (List.mem_filter.mp (mem_distinctKeys.mp h3)).2
          simpa using h4
        · right
          have h4 := (List.mem_filter.mp (mem_distinctKeys.mp h3)).2
          simpa using h4
      rw [buildGeoMap_error hne]

/-- A line whose stripped text does not start with a hop number followed by
whitespace produces no hop record. -/
theorem lineToHop_none {line : String} (h : hopHeader (pyStrip line) = none) :
    lineToHop line = none := by
  rw [lineToHop]
  by_cases he : (pyStrip line).data.isEmpty
  · rw [if_pos he]
  · rw [if_neg he, h]

end NetScout

namespace NetScout

/-! Claim theorems. -/

set_option maxRecDepth 40000

/-- C1: the claimed same-day idempotence of insert_alert fails for candidates
whose dst_ip is absent.  The unique index compares dst_ip with SQLite NULL
semantics, under which no row ever conflicts with a NULL-keyed row, so INSERT
OR IGNORE inserts a second row: persisting the same horizontal-scan candidate
twice on the same calendar day yields two stored rows, not one. -/
theorem insert_alert_null_dst_duplicates :
    c1Alert.dst_ip = none ∧
    sqlDate "2025-10-12T08:00:00Z" = sqlDate "2025-10-12T09:05:00Z" ∧
    (insert_alert (insert_alert [] c1Alert false "2025-10-12T08:00:00Z")
      c1Alert false "2025-10-12T09:05:00Z").length = 2 := by
  decide

/-- C2 counterexample: with the default configuration run_all_rules passes
500 (the per-run maximum), not 200, as every per-rule limit: on a store with
201 horizontally-flagged sources the horizontal rule contributes 201
candidates to the run result, refuting the claimed per-rule cap of 200. -/
theorem run_all_rules_exceeds_per_rule_cap :
    200 < ((run_all_rules bigStore "" none).filter
      fun c => c.alert_type == "horizontal_scan").length := by
  rw [run_all_rules_bigStore]
  have hall : (detect_horizontal_scans bigStore "" 500).filter
      (fun c => c.alert_type == "horizontal_scan") = detect_horizontal_scans bigStore "" 500 := by
    refine List.filter_eq_self.mpr fun c hc => ?_
    have := detect_h_all_horizontal bigStore "" 500 c hc
    simp [this]
  rw [hall, detect_h_bigStore_length]
  omega

/-- C2 amended: with the default configuration each rule is invoked with the
per-run maximum 500 as its limit, so each rule contributes at most 500
candidates (not 200), and the concatenated, deduplicated run result is capped
by nothing further, hence only by 3 times 500 (not by 500). -/
theorem run_all_rules_cap_bounds :
    ∀ (evs : List IpEvent) (since_iso : String),
      (detect_horizontal_scans evs since_iso MAX_ALERTS_PER_RUN).length ≤ MAX_ALERTS_PER_RUN ∧
      (detect_vertical_scans evs since_iso MAX_ALERTS_PER_RUN).length ≤ MAX_ALERTS_PER_RUN ∧
      (detect_repeated_connections evs since_iso MAX_ALERTS_PER_RUN).length
        ≤ MAX_ALERTS_PER_RUN ∧
      (run_all_rules evs since_iso none).length ≤ 3 * MAX_ALERTS_PER_RUN := by
  intro evs since_iso
  exact ⟨detect_h_length_le evs since_iso MAX_ALERTS_PER_RUN,
    detect_v_length_le evs since_iso MAX_ALERTS_PER_RUN,
    detect_r_length_le evs since_iso MAX_ALERTS_PER_RUN,
    run_all_rules_length_le evs since_iso⟩

/-- C3: geo_enrich_hops never attaches geographic attributes — not even to a
hop whose IP is an endpoint of an event with non-NULL coordinates (the stated
contract), because the geo-map entry construction calls the get method that
sqlite3.Row does not define; the AttributeError is swallowed by the bare
except and every hop is returned unchanged. -/
theorem geo_enrich_hops_attaches_nothing :
    (geoHop.ip = some geoEvent.src_ip ∧ geoEvent.latitude.isSome = true ∧
      geoEvent.longitude.isSome = true) ∧
    geo_enrich_hops [geoEvent] [geoHop] = [geoHop] ∧
    (∀ (events : List IpEvent) (hops : List Hop), geo_enrich_hops events hops = hops) :=
  ⟨by decide, geo_enrich_hops_eq_self [geoEvent] [geoHop], geo_enrich_hops_eq_self⟩

/-- C4 counterexample: a source with exactly HORIZONTAL_DST_IP_THRESHOLD
distinct destinations IS flagged by the horizontal-scan rule when its total
connection count exceeds HORIZONTAL_CONN_THRESHOLD (the HAVING clause is a
disjunction), refuting the claim that the exact-threshold source is never
flagged. -/
theorem horizontal_flags_at_exact_dst_threshold :
    dstCountIn (windowEvents c4Events "") "s" = HORIZONTAL_DST_IP_THRESHOLD ∧
    connCountIn (windowEvents c4Events "") "s" = 201 ∧
    (detect_horizontal_scans c4Events "" 200).map (·.src_ip) = [some "s"] := by
  decide

/-- C4 amended: strict-> boundary semantics of the three rules.  A source at
exactly the distinct-destination threshold is not flagged by the horizontal
rule provided its connection count is within HORIZONTAL_CONN_THRESHOLD; one
destination more satisfies the flag condition (a flагged group exists).  The
vertical and high-connection-volume rules have the analogous boundary
unconditionally. -/
theorem rule_threshold_boundaries :
    (∀ (evs : List IpEvent) (since_iso : String) (limit : Nat) (s : String),
      dstCountIn (windowEvents evs since_iso) s = HORIZONTAL_DST_IP_THRESHOLD →
      connCountIn (windowEvents evs since_iso) s ≤ HORIZONTAL_CONN_THRESHOLD →
      some s ∉ (detect_horizontal_scans evs since_iso limit).map (·.src_ip)) ∧
    (∀ (evs : List IpEvent) (since_iso : String) (s : String),
      dstCountIn (windowEvents evs since_iso) s = HORIZONTAL_DST_IP_THRESHOLD + 1 →
      ∃ g ∈ (horizontalGroups (windowEvents evs since_iso)).filter horizontalHaving,
        g.src_ip = s) ∧
    (∀ (evs : List IpEvent) (since_iso : String) (limit : Nat) (k : String × String),
      portsCountIn (windowEvents evs since_iso) k = VERTICAL_PORTS_THRESHOLD →
      (some k.1, some k.2) ∉
        (detect_vertical_scans evs since_iso limit).map fun c => (c.src_ip, c.dst_ip)) ∧
    (∀ (evs : List IpEvent) (since_iso : String) (k : String × String),
      portsCountIn (windowEvents evs since_iso) k = VERTICAL_PORTS_THRESHOLD + 1 →
      ∃ g ∈ (verticalGroups (windowEvents evs since_iso)).filter verticalHaving,
        g.src_ip = k.1 ∧ g.dst_ip = k.2) ∧
    (∀ (evs : List IpEvent) (since_iso : String) (limit : Nat) (s : String),
      connCountIn (windowEvents evs since_iso) s = REPEATED_CONN_THRESHOLD →
      some s ∉ (detect_repeated_connections evs since_iso limit).map (·.src_ip)) ∧
    (∀ (evs : List IpEvent) (since_iso : String) (s : String),
      connCountIn (windowEvents evs since_iso) s = REPEATED_CONN_THRESHOLD + 1 →
      ∃ g ∈ (repeatedGroups (windowEvents evs since_iso)).filter repeatedHaving,
        g.src_ip = s) := by
  refine ⟨?_, ?_, ?_, ?_, ?_, ?_⟩
  · intro evs since_iso limit s hd hc
    exact horizontal_not_in_output (le_of_eq hd) hc
  · intro evs since_iso s hd
    exact horizontal_flag_exists hd
  · intro evs since_iso limit k hp
    exact vertical_not_in_output (le_of_eq hp)
  · intro evs since_iso k hp
    exact vertical_flag_exists hp
  · intro evs since_iso limit s hc
    exact repeated_not_in_output (le_of_eq hc)
  · intro evs since_iso s hc
    exact repeated_flag_exists hc

/-- C4 witness: the amended boundary theorem applied at concrete boundary
stores for each of the six parts. -/
theorem rule_threshold_boundaries_witness :
    (some "s" ∉ (detect_horizontal_scans wHorizAt "" 200).map (·.src_ip)) ∧
    (∃ g ∈ (horizontalGroups (windowEvents wHorizAbove "")).filter horizontalHaving,
      g.src_ip = "s") ∧
    ((some "s", some "d") ∉
      (detect_vertical_scans wVertAt "" 200).map fun c => (c.src_ip, c.dst_ip)) ∧
    (∃ g ∈ (verticalGroups (windowEvents wVertAbove "")).filter verticalHaving,
      g.src_ip = "s" ∧ g.dst_ip = "d") ∧
    (some "s" ∉ (detect_repeated_connections wRepAt "" 200).map (·.src_ip)) ∧
    (∃ g ∈ (repeatedGroups (windowEvents wRepAbove "")).filter repeatedHaving,
      g.src_ip = "s") :=
  ⟨rule_threshold_boundaries.1 wHorizAt "" 200 "s" (by decide) (by decide),
   rule_threshold_boundaries.2.1 wHorizAbove "" "s" (by decide),
   rule_threshold_boundaries.2.2.1 wVertAt "" 200 ("s", "d") (by decide),
   rule_threshold_boundaries.2.2.2.1 wVertAbove "" ("s", "d") (by decide),
   rule_threshold_boundaries.2.2.2.2.1 wRepAt "" 200 "s" (by decide),
   rule_threshold_boundaries.2.2.2.2.2 wRepAbove "" "s" (by decide)⟩

/-- C5: in one enrich_subject run the politeness delay of a kind is emitted
exactly as often as its provider invocation, and that happens exactly once
when the kind is processed and its key misses in the entry cache — never
after a cache hit. -/
theorem enrich_subject_sleep_iff_miss (p : Providers) (cfg : EnrichConfig)
    (cache : List CacheRow) (subject : String) (kinds : List String) (now : String)
    (k : String) :
    sleepCount k (enrich_subject p cfg cache subject kinds now).trace
      = callCount k (enrich_subject p cfg cache subject kinds now).trace ∧
    callCount k (enrich_subject p cfg cache subject kinds now).trace
      = (if requestedAndEnabled cfg kinds k && (cache_get cache (k, subject)).isNone
          then 1 else 0) := by
  constructor
  · rw [enrich_sleepCount, enrich_callCount]
  · exact enrich_callCount p cfg cache subject kinds now k

/-- C6: performing the same lookup twice makes exactly one provider
invocation: the first run stores the provider result under the composite key
(kind, subject) stamped with its own run time, the second run invokes no
provider for that kind and reuses the stored result, and the
one-row-per-subject-key invariant is preserved. -/
theorem enrich_subject_second_lookup_cached (p : Providers) (cfg : EnrichConfig)
    (cache0 : List CacheRow) (subject k : String) (kinds : List String)
    (now1 now2 : String)
    (hreq : requestedAndEnabled cfg kinds k = true)
    (hmiss : cache_get cache0 (k, subject) = none)
    (hnd : cacheKeysNodup cache0) :
    callCount k (enrich_subject p cfg cache0 subject kinds now1).trace = 1 ∧
    callCount k (enrich_subject p cfg (enrich_subject p cfg cache0 subject kinds now1).cache
      subject kinds now2).trace = 0 ∧
    (∃ v, cache_get (enrich_subject p cfg cache0 subject kinds now1).cache (k, subject)
        = some (v, now1) ∧
      (enrich_subject p cfg cache0 subject kinds now1).result.lookup k = some v ∧
      (enrich_subject p cfg (enrich_subject p cfg cache0 subject kinds now1).cache
        subject kinds now2).result.lookup k = some v) ∧
    cacheKeysNodup (enrich_subject p cfg (enrich_subject p cfg cache0 subject kinds now1).cache
      subject kinds now2).cache := by
  have h1 : callCount k (enrich_subject p cfg cache0 subject kinds now1).trace = 1 := by
    rw [enrich_callCount]
    simp [hreq, hmiss]
  have hndfinal : cacheKeysNodup (enrich_subject p cfg
      (enrich_subject p cfg cache0 subject kinds now1).cache subject kinds now2).cache :=
    enrich_nodup _ _ _ _ _ _ (enrich_nodup _ _ _ _ _ _ hnd)
  rcases requestedAndEnabled_cases hreq with rfl | rfl | rfl | rfl
  · obtain ⟨hc1, hr1⟩ := enrich_rdns_miss p cfg cache0 subject kinds now1 hreq hmiss
    refine ⟨h1, ?_, ⟨optStrVal (p.rdnsFn subject), hc1, hr1,
      enrich_rdns_hit p cfg _ subject kinds now2 hreq hc1⟩, hndfinal⟩
    rw [enrich_callCount]
    simp [hc1]
  · obtain ⟨hc1, hr1⟩ := enrich_whois_miss p cfg cache0 subject kinds now1 hreq hmiss
    refine ⟨h1, ?_, ⟨optStrVal (p.whoisFn subject), hc1, hr1,
      enrich_whois_hit p cfg _ subject kinds now2 hreq hc1⟩, hndfinal⟩
    rw [enrich_callCount]
    simp [hc1]
  · obtain ⟨hc1, hr1⟩ := enrich_tr_miss p cfg cache0 subject kinds now1 hreq hmiss
    refine ⟨h1, ?_, ⟨.jstr (p.trFn subject), hc1, hr1,
      enrich_tr_hit p cfg _ subject kinds now2 hreq hc1⟩, hndfinal⟩
    rw [enrich_callCount]
    simp [hc1]
  · obtain ⟨hc1, hr1⟩ := enrich_pdns_miss p cfg cache0 subject kinds now1 hreq hmiss
    refine ⟨h1, ?_, ⟨optJVal (pdns_lookup p subject), hc1, hr1,
      enrich_pdns_hit p cfg _ subject kinds now2 hreq hc1⟩, hndfinal⟩
    rw [enrich_callCount]
    simp [hc1]

/-- C6 witness: the double-lookup theorem applied to a concrete provider
environment, an empty cache and the rdns kind. -/
theorem enrich_subject_second_lookup_cached_witness :
    callCount "rdns" (enrich_subject wProviders ⟨true, true, true⟩ [] "1.2.3.4"
      ["rdns", "whois", "traceroute", "pdns"] "T1").trace = 1 ∧
    callCount "rdns" (enrich_subject wProviders ⟨true, true, true⟩
      (enrich_subject wProviders ⟨true, true, true⟩ [] "1.2.3.4"
        ["rdns", "whois", "traceroute", "pdns"] "T1").cache "1.2.3.4"
      ["rdns", "whois", "traceroute", "pdns"] "T2").trace = 0 ∧
    (∃ v, cache_get (enrich_subject wProviders ⟨true, true, true⟩ [] "1.2.3.4"
        ["rdns", "whois", "traceroute", "pdns"] "T1").cache ("rdns", "1.2.3.4")
        = some (v, "T1") ∧
      (enrich_subject wProviders ⟨true, true, true⟩ [] "1.2.3.4"
        ["rdns", "whois", "traceroute", "pdns"] "T1").result.lookup "rdns" = some v ∧
      (enrich_subject wProviders ⟨true, true, true⟩
        (enrich_subject wProviders ⟨true, true, true⟩ [] "1.2.3.4"
          ["rdns", "whois", "traceroute", "pdns"] "T1").cache "1.2.3.4"
        ["rdns", "whois", "traceroute", "pdns"] "T2").result.lookup "rdns" = some v) ∧
    cacheKeysNodup (enrich_subject wProviders ⟨true, true, true⟩
      (enrich_subject wProviders ⟨true, true, true⟩ [] "1.2.3.4"
        ["rdns", "whois", "traceroute", "pdns"] "T1").cache "1.2.3.4"
      ["rdns", "whois", "traceroute", "pdns"] "T2").cache :=
  enrich_subject_second_lookup_cached wProviders ⟨true, true, true⟩ [] "1.2.3.4" "rdns"
    ["rdns", "whois", "traceroute", "pdns"] "T1" "T2" (by decide) rfl (by simp [cacheKeysNodup])

/-- C7: dry-run performs no write: insert_alert with dry_run set leaves the
table unchanged for any candidate, and so does the whole insertion loop of
run_scan, whatever the candidate volume. -/
theorem insert_alert_dry_run_no_write (table : List AlertRow) (cands : List Cand)
    (alert : Cand) (now : String) :
    insert_alert table alert true now = table ∧ insertAll table cands true now = table := by
  refine ⟨rfl, ?_⟩
  induction cands with
  | nil => rfl
  | cons a as ih =>
    rw [insertAll, List.foldl_cons]
    exact ih

/-- C8: the documented example lines parse as specified: a full line yields
hop 3 with the parenthesized IP and the two round-trip times, and a
no-response line yields hop 4 with no IP and no times. -/
theorem parse_traceroute_examples :
    parse_traceroute_text "3 192.168.50.1 (192.168.50.1)  0.710 ms  0.683 ms" =
      [{ hop := 3, ip := some "192.168.50.1", rdns := some "192.168.50.1",
         times := [(0.710 : ℚ), (0.683 : ℚ)],
         output := "3 192.168.50.1 (192.168.50.1)  0.710 ms  0.683 ms" }] ∧
    parse_traceroute_text "4 * * *" =
      [{ hop := 4, ip := none, rdns := none, times := [], output := "4 * * *" }] := by
  have e1 : decimalVal "0.710" = (0.710 : ℚ) := by
    have h1 : ("0.710" : String).data.takeWhile (·.isDigit) = ['0'] := by decide
    have h2 : (("0.710" : String).data.dropWhile (·.isDigit)).drop 1 = ['7', '1', '0'] := by
      decide
    have h3 : natOfDigits ['0'] = 0 := by decide
    have h4 : natOfDigits ['7', '1', '0'] = 710 := by decide
    have h5 : (['7', '1', '0'] : List Char).length = 3 := by decide
    simp only [decimalVal, h1, h2, h3, h4, h5]
    norm_num
  have e2 : decimalVal "0.683" = (0.683 : ℚ) := by
    have h1 : ("0.683" : String).data.takeWhile (·.isDigit) = ['0'] := by decide
    have h2 : (("0.683" : String).data.dropWhile (·.isDigit)).drop 1 = ['6', '8', '3'] := by
      decide
    have h3 : natOfDigits ['0'] = 0 := by decide
    have h4 : natOfDigits ['6', '8', '3'] = 683 := by decide
    have h5 : (['6', '8', '3'] : List Char).length = 3 := by decide
    simp only [decimalVal, h1, h2, h3, h4, h5]
    norm_num
  constructor
  · rw [← e1, ← e2]
    rfl
  · rfl

/-- C9: the parser is a total function on lines: hop records appear in line
order (parsing distributes over concatenation) and a line that does not
begin with a hop number followed by whitespace is omitted without affecting
the rest. -/
theorem parse_traceroute_skips_malformed :
    (∀ (xs ys : List String) (bad : String), hopHeader (pyStrip bad) = none →
      parseHopLines (xs ++ bad :: ys) = parseHopLines (xs ++ ys)) ∧
    (∀ (xs ys : List String), parseHopLines (xs ++ ys)
      = parseHopLines xs ++ parseHopLines ys) := by
  constructor
  · intro xs ys bad hbad
    simp [parseHopLines, List.filterMap_append, List.filterMap_cons, lineToHop_none hbad]
  · intro xs ys
    simp [parseHopLines, List.filterMap_append]

/-- C9 witness: the omission theorem applied to a concrete banner line
between two hop lines. -/
theorem parse_traceroute_skips_malformed_witness :
    parseHopLines (["1 10.0.0.1 (10.0.0.1)"]
        ++ "traceroute to host (10.0.0.1), 30 hops max" :: ["2 * * *"])
      = parseHopLines (["1 10.0.0.1 (10.0.0.1)"] ++ ["2 * * *"]) ∧
    parseHopLines (["1 10.0.0.1 (10.0.0.1)"] ++ ["2 * * *"])
      = parseHopLines ["1 10.0.0.1 (10.0.0.1)"] ++ parseHopLines ["2 * * *"] :=
  ⟨parse_traceroute_skips_malformed.1 ["1 10.0.0.1 (10.0.0.1)"] ["2 * * *"]
      "traceroute to host (10.0.0.1), 30 hops max" (by decide),
   parse_traceroute_skips_malformed.2 ["1 10.0.0.1 (10.0.0.1)"] ["2 * * *"]⟩

/-- C10: with no passive-DNS credentials, the requested pdns kind still
caches a null result under (pdns, subject) and still sleeps the politeness
delay; a later run with credentials configured hits that never-expiring null
entry, invokes no provider, and reuses the null. -/
theorem pdns_null_cached_and_reused (p p2 : Providers) (cfg : EnrichConfig)
    (cache0 : List CacheRow) (subject : String) (kinds : List String)
    (now1 now2 : String)
    (hcreds : p.hasPdnsCreds = false)
    (hk : kinds.contains "pdns" = true)
    (hmiss : cache_get cache0 ("pdns", subject) = none) :
    cache_get (enrich_subject p cfg cache0 subject kinds now1).cache ("pdns", subject)
      = some (.jnull, now1) ∧
    sleepCount "pdns" (enrich_subject p cfg cache0 subject kinds now1).trace = 1 ∧
    callCount "pdns" (enrich_subject p2 cfg
      (enrich_subject p cfg cache0 subject kinds now1).cache subject kinds now2).trace = 0 ∧
    (enrich_subject p2 cfg (enrich_subject p cfg cache0 subject kinds now1).cache
      subject kinds now2).result.lookup "pdns" = some .jnull := by
  have hreq : requestedAndEnabled cfg kinds "pdns" = true := by
    rw [requested_pdns]
    exact hk
  have hnullv : optJVal (pdns_lookup p subject) = .jnull := by
    simp [pdns_lookup, hcreds, optJVal]
  obtain ⟨hc1, hr1⟩ := enrich_pdns_miss p cfg cache0 subject kinds now1 hreq hmiss
  rw [hnullv] at hc1 hr1
  refine ⟨hc1, ?_, ?_, ?_⟩
  · rw [enrich_sleepCount]
    simp [hreq, hmiss]
  · rw [enrich_callCount]
    simp [hc1]
  · exact enrich_pdns_hit p2 cfg _ subject kinds now2 hreq hc1

/-- C10 witness: the theorem applied to a concrete credential-free
environment, an empty cache, the pdns kind alone, and a second run with
credentials configured. -/
theorem pdns_null_cached_and_reused_witness :
    cache_get (enrich_subject wProviders ⟨true, true, true⟩ [] "8.8.8.8" ["pdns"]
      "T1").cache ("pdns", "8.8.8.8") = some (.jnull, "T1") ∧
    sleepCount "pdns" (enrich_subject wProviders ⟨true, true, true⟩ [] "8.8.8.8" ["pdns"]
      "T1").trace = 1 ∧
    callCount "pdns" (enrich_subject wProvidersCreds ⟨true, true, true⟩
      (enrich_subject wProviders ⟨true, true, true⟩ [] "8.8.8.8" ["pdns"] "T1").cache
      "8.8.8.8" ["pdns"] "T2").trace = 0 ∧
    (enrich_subject wProvidersCreds ⟨true, true, true⟩
      (enrich_subject wProviders ⟨true, true, true⟩ [] "8.8.8.8" ["pdns"] "T1").cache
      "8.8.8.8" ["pdns"] "T2").result.lookup "pdns" = some .jnull :=
  pdns_null_cached_and_reused wProviders wProvidersCreds ⟨true, true, true⟩ [] "8.8.8.8"
    ["pdns"] "T1" "T2" rfl (by decide) rfl

end NetScout
